import Mathlib

/-! # llarp/net/ip.cpp : in-place IP address rewriting with checksum deltas

A shallow embedding of `src/llarp/net/ip.cpp`, followed by the properties of the address
rewrite that the specification states.

* A packet is the byte array `buf` (a list of naturals, each meant to be below 256; the
  length of the list is `sizeof(buf)`, the capacity) together with the current length `sz`.
* Memory accesses return `Option`: an access that leaves the array is `none`. An access
  at an index at or above `sz` but inside the array is an ordinary access, as in C.
  `UpdateIPv4Address` reaches at most index 77 (a header of 60 bytes, a checksum offset of
  16 and a field of 2 bytes), so the theorems assume a capacity of at least 78 bytes and
  then prove that the call returns.
* `nuint16_t` and `nuint32_t` values are the native integers obtained by loading the wire
  bytes, so every load and store takes the byte order of the host as a parameter, and the
  theorems hold for both byte orders.
* Machine integers are naturals; 32-bit arithmetic is reduced modulo `2 ^ 32`.
-/

namespace llarp
namespace net

/-! ## Host byte order and native loads and stores -/

/-- Byte order of the host the code runs on. -/
inductive ByteOrder where
  | little
  | big
  deriving DecidableEq, Repr

/-- The native `uint16_t` whose two bytes in memory are `b0 b1`. -/
def word16 (e : ByteOrder) (b0 b1 : Nat) : Nat :=
  match e with
  | .little => b0 + 256 * b1
  | .big => 256 * b0 + b1

/-- The native `uint32_t` whose four bytes in memory are `b0 b1 b2 b3`. -/
def word32 (e : ByteOrder) (b0 b1 b2 b3 : Nat) : Nat :=
  match e with
  | .little => b0 + 256 * b1 + 65536 * b2 + 16777216 * b3
  | .big => 16777216 * b0 + 65536 * b1 + 256 * b2 + b3

/-- The two bytes a native `uint16_t` occupies in memory. -/
def bytes16 (e : ByteOrder) (v : Nat) : List Nat :=
  match e with
  | .little => [v % 256, v / 256 % 256]
  | .big => [v / 256 % 256, v % 256]

/-- The four bytes a native `uint32_t` occupies in memory. -/
def bytes32 (e : ByteOrder) (v : Nat) : List Nat :=
  match e with
  | .little => [v % 256, v / 256 % 256, v / 65536 % 256, v / 16777216 % 256]
  | .big => [v / 16777216 % 256, v / 65536 % 256, v / 256 % 256, v % 256]

/-- Overwrite the bytes of `buf` starting at index `i` with `bs` (no bounds check). -/
def poke : List Nat → Nat → List Nat → List Nat
  | buf, _, [] => buf
  | buf, i, b :: bs => poke (buf.set i b) (i + 1) bs

/-- Read of one byte: `buf[i]`. -/
def load8 (buf : List Nat) (i : Nat) : Option Nat := buf[i]?

/-- Native 16-bit load `*(uint16_t *)(buf + i)`. -/
def load16 (e : ByteOrder) (buf : List Nat) (i : Nat) : Option Nat :=
  match buf[i]?, buf[i + 1]? with
  | some b0, some b1 => some (word16 e b0 b1)
  | _, _ => none

/-- Native 32-bit load `*(uint32_t *)(buf + i)`. -/
def load32 (e : ByteOrder) (buf : List Nat) (i : Nat) : Option Nat :=
  match buf[i]?, buf[i + 1]?, buf[i + 2]?, buf[i + 3]? with
  | some b0, some b1, some b2, some b3 => some (word32 e b0 b1 b2 b3)
  | _, _, _, _ => none

/-- Native 16-bit store `*(uint16_t *)(buf + i) = v`. -/
def store16 (e : ByteOrder) (buf : List Nat) (i v : Nat) : Option (List Nat) :=
  if i + 2 ≤ buf.length then some (poke buf i (bytes16 e v)) else none

/-- Native 32-bit store `*(uint32_t *)(buf + i) = v`. -/
def store32 (e : ByteOrder) (buf : List Nat) (i v : Nat) : Option (List Nat) :=
  if i + 4 ≤ buf.length then some (poke buf i (bytes32 e v)) else none

/-- The libc conversion `ntohs`: a byte swap on a little-endian host, the identity on a
big-endian one. -/
def ntohs (e : ByteOrder) (x : Nat) : Nat :=
  match e with
  | .little => (x % 256) * 256 + x / 256 % 256
  | .big => x % 65536

/-- The libc conversion `ntohl`. -/
def ntohl (e : ByteOrder) (x : Nat) : Nat :=
  match e with
  | .little =>
      (x % 256) * 16777216 + (x / 256 % 256) * 65536 + (x / 65536 % 256) * 256
        + x / 16777216 % 256
  | .big => x % 4294967296

/-! ## The packet -/

/-- The packet of `IPPacket`: the array `buf` and the current size `sz`. -/
structure IPPacket where
  buf : List Nat
  sz : Nat
  deriving DecidableEq, Repr

/-- Every element of the array is a byte. -/
def bytesOk (buf : List Nat) : Prop := ∀ b ∈ buf, b < 256

instance (buf : List Nat) : Decidable (bytesOk buf) := by
  unfold bytesOk; infer_instance

/-- Invariant of the packet buffer (spec §3): `sz` is at most the capacity and the array
holds bytes. -/
def IPPacket.wf (p : IPPacket) : Prop := p.sz ≤ p.buf.length ∧ bytesOk p.buf

instance (p : IPPacket) : Decidable p.wf := by
  unfold IPPacket.wf; infer_instance

/-! ## Checksum arithmetic -/

/-- The C expression `~x` on a `uint32_t`. -/
def not32 (x : Nat) : Nat := 0xFFFFFFFF - x % 0x100000000

/-- Macro `ADD32CS(x)`: `(x & 0xFFff) + (x >> 16)`. -/
def ADD32CS (x : Nat) : Nat := (x &&& 0xFFFF) + (x >>> 16)

/-- Macro `SUB32CS(x)`: `((~x) & 0xFFff) + ((~x) >> 16)`. -/
def SUB32CS (x : Nat) : Nat := ((not32 x) &&& 0xFFFF) + ((not32 x) >>> 16)

/-- The two folding statements shared by `ipchksum`, `deltaIPv4Checksum` and
`deltaIPv6Checksum`: `sum = (sum & 0xFFff) + (sum >> 16); sum += sum >> 16;`. -/
def fold2 (sum : Nat) : Nat :=
  let sum1 := ((sum &&& 0xFFFF) + (sum >>> 16)) % 0x100000000
  (sum1 + (sum1 >>> 16)) % 0x100000000

/-- The unreduced operand sum of `deltaIPv4Checksum`. -/
def deltaIPv4Sum (old_sum old_src_ip old_dst_ip new_src_ip new_dst_ip : Nat) : Nat :=
  old_sum + ADD32CS old_src_ip + ADD32CS old_dst_ip + SUB32CS new_src_ip + SUB32CS new_dst_ip

/-- Function `deltaIPv4Checksum` (ip.cpp 195-211). -/
def deltaIPv4Checksum (old_sum old_src_ip old_dst_ip new_src_ip new_dst_ip : Nat) : Nat :=
  let sum := deltaIPv4Sum old_sum old_src_ip old_dst_ip new_src_ip new_dst_ip % 0x100000000
  fold2 sum &&& 0xFFFF

/-- Macro `ADDN128CS(x)` over the four words of an address. -/
def ADDN128CS (x : Nat × Nat × Nat × Nat) : Nat :=
  ADD32CS x.1 + ADD32CS x.2.1 + ADD32CS x.2.2.1 + ADD32CS x.2.2.2

/-- Macro `SUBN128CS(x)` over the four words of an address. -/
def SUBN128CS (x : Nat × Nat × Nat × Nat) : Nat :=
  SUB32CS x.1 + SUB32CS x.2.1 + SUB32CS x.2.2.1 + SUB32CS x.2.2.2

/-- The unreduced operand sum of `deltaIPv6Checksum`. -/
def deltaIPv6Sum (old_sum : Nat) (old_src_ip old_dst_ip new_src_ip new_dst_ip :
    Nat × Nat × Nat × Nat) : Nat :=
  old_sum + ADDN128CS old_src_ip + ADDN128CS old_dst_ip
    + SUBN128CS new_src_ip + SUBN128CS new_dst_ip

/-- Function `deltaIPv6Checksum` (ip.cpp 213-236). -/
def deltaIPv6Checksum (old_sum : Nat) (old_src_ip old_dst_ip new_src_ip new_dst_ip :
    Nat × Nat × Nat × Nat) : Nat :=
  let sum := deltaIPv6Sum old_sum old_src_ip old_dst_ip new_src_ip new_dst_ip % 0x100000000
  fold2 sum &&& 0xFFFF

/-- The loop of `ipchksum` (ip.cpp 121-133): native 16-bit words are added to the 32-bit
accumulator; a trailing odd byte is placed in the first byte of a zeroed word. -/
def ipchksumLoop (e : ByteOrder) : List Nat → Nat → Nat
  | b0 :: b1 :: rest, sum => ipchksumLoop e rest ((sum + word16 e b0 b1) % 0x100000000)
  | [b0], sum => (sum + word16 e b0 0) % 0x100000000
  | [], sum => sum

/-- Function `ipchksum` (ip.cpp 118-141) on the `sz` bytes at `buf`, given as a list. -/
def ipchksum (e : ByteOrder) (buf : List Nat) (sum : Nat) : Nat :=
  not32 (fold2 (ipchksumLoop e buf sum)) &&& 0xFFFF

/-! ## The IPv4 rewrite -/

/-- Modelled from the spec: the field `ihl` of `struct ip_header` (declared in ip.hpp,
which is not among the sources) is the low nibble of the first header byte. -/
def ihl (buf : List Nat) : Option Nat := (load8 buf 0).map (fun b => b % 16)

/-- Function `deltaChecksumIPv4TCP` (ip.cpp 263-280); `pld` is the index of the payload
in the array. The parameter `psz` is unused, as in the source. -/
def deltaChecksumIPv4TCP (e : ByteOrder) (buf : List Nat) (pld _psz fragoff chksumoff : Nat)
    (oSrcIP oDstIP nSrcIP nDstIP : Nat) : Option (List Nat) :=
  if fragoff > chksumoff then some buf
  else do
    let check := pld + chksumoff - fragoff
    let old ← load16 e buf check
    let buf1 ← store16 e buf check (deltaIPv4Checksum old oSrcIP oDstIP nSrcIP nDstIP)
    let cur ← load16 e buf1 check
    if cur = 0xFFFF then store16 e buf1 check 0x0000 else some buf1

/-- Function `deltaChecksumIPv4UDP` (ip.cpp 282-303). -/
def deltaChecksumIPv4UDP (e : ByteOrder) (buf : List Nat) (pld _psz fragoff : Nat)
    (oSrcIP oDstIP nSrcIP nDstIP : Nat) : Option (List Nat) :=
  if fragoff > 6 then some buf
  else do
    let check := pld + 6
    let old ← load16 e buf check
    if old = 0x0000 then some buf
    else store16 e buf check (deltaIPv4Checksum old oSrcIP oDstIP nSrcIP nDstIP)

/-- The block `// L4 checksum` of `IPPacket::UpdateIPv4Address` (ip.cpp 155-180), with
`hl` the value of `hdr->ihl`; it yields the array after the transport helper ran. The two
helpers called are the ones the source defines as `deltaChecksumIPv4TCP` and
`deltaChecksumIPv4UDP`. -/
def l4Checksum (e : ByteOrder) (p : IPPacket) (hl oSrcIP oDstIP nSrcIP nDstIP : Nat) :
    Option (List Nat) :=
  let ihs := hl * 4
  if ihs ≤ p.sz then do
    let pld := ihs
    let psz := p.sz - ihs
    let frag_off ← load16 e p.buf 6
    let fragoff := (ntohs e frag_off &&& 0x1FFF) * 8
    let protocol ← load8 p.buf 9
    match protocol with
    | 6 => deltaChecksumIPv4TCP e p.buf pld psz fragoff 16 oSrcIP oDstIP nSrcIP nDstIP
    | 17 => deltaChecksumIPv4UDP e p.buf pld psz fragoff oSrcIP oDstIP nSrcIP nDstIP
    | 136 => deltaChecksumIPv4UDP e p.buf pld psz fragoff oSrcIP oDstIP nSrcIP nDstIP
    | 33 => deltaChecksumIPv4TCP e p.buf pld psz fragoff 6 oSrcIP oDstIP nSrcIP nDstIP
    | _ => some p.buf
  else some p.buf

/-- Method `IPPacket::UpdateIPv4Address` (ip.cpp 145-189). The declaration of
`struct ip_header` is in ip.hpp, which is not among the sources; the fields sit at the
offsets of the fixed 20-byte IPv4 header that the spec names: `frag_off` at 6, `protocol`
at 9, `check` at 10, `saddr` at 12, `daddr` at 16. The header checksum is read after the
transport helper has written, as in the source. -/
def UpdateIPv4Address (e : ByteOrder) (p : IPPacket) (nSrcIP nDstIP : Nat) :
    Option IPPacket := do
  let oSrcIP ← load32 e p.buf 12
  let oDstIP ← load32 e p.buf 16
  let hl ← ihl p.buf
  let buf1 ← l4Checksum e p hl oSrcIP oDstIP nSrcIP nDstIP
  let v4chk ← load16 e buf1 10
  let buf2 ← store16 e buf1 10 (deltaIPv4Checksum v4chk oSrcIP oDstIP nSrcIP nDstIP)
  let buf3 ← store32 e buf2 12 nSrcIP
  let buf4 ← store32 e buf3 16 nDstIP
  some { buf := buf4, sz := p.sz }

/-- Method `IPPacket::srcv4` (ip.cpp 93-97): `ntohl(Header()->saddr)`. -/
def srcv4 (e : ByteOrder) (p : IPPacket) : Option Nat := (load32 e p.buf 12).map (ntohl e)

/-- Method `IPPacket::dstv4` (ip.cpp 99-103): `ntohl(Header()->daddr)`. -/
def dstv4 (e : ByteOrder) (p : IPPacket) : Option Nat := (load32 e p.buf 16).map (ntohl e)

/-! ## The IPv6 rewrite -/

/-- The `n` low bytes of `x`, least significant first. -/
def leBytes : Nat → Nat → List Nat
  | 0, _ => []
  | n + 1, x => x % 256 :: leBytes n (x / 256)

/-- The number whose bytes, least significant first, are the given list. -/
def ofLeBytes : List Nat → Nat
  | [] => 0
  | b :: bs => b + 256 * ofLeBytes bs

/-- The sixteen bytes a native 128-bit integer occupies in memory. -/
def bytes128 (e : ByteOrder) (v : Nat) : List Nat :=
  match e with
  | .little => leBytes 16 v
  | .big => (leBytes 16 v).reverse

/-- Modelled from the spec: `ntoh128` of util/endian.hpp (not among the sources) converts a
128-bit value between wire order and host order: a reversal of its sixteen bytes on a
little-endian host and the identity on a big-endian host. -/
def ntoh128 (e : ByteOrder) (x : Nat) : Nat :=
  match e with
  | .little => ofLeBytes (leBytes 16 x).reverse
  | .big => x % 2 ^ 128

/-- Method `IPPacket::HUIntToIn6` (ip.cpp 34-41): `ntoh128` followed by a `memcpy` of the
sixteen bytes into the `in6_addr`, which is represented by its sixteen bytes. -/
def HUIntToIn6 (e : ByteOrder) (x : Nat) : List Nat := bytes128 e (ntoh128 e x)

/-- Copy of `n` bytes out of the array, starting at index `i`. -/
def loadBytes (buf : List Nat) (i n : Nat) : Option (List Nat) :=
  if i + n ≤ buf.length then some ((buf.drop i).take n) else none

/-- Copy of the bytes `bs` into the array at index `i`. -/
def storeBytes (buf : List Nat) (i : Nat) (bs : List Nat) : Option (List Nat) :=
  if i + bs.length ≤ buf.length then some (poke buf i bs) else none

/-- The four native 32-bit words of the `in6_addr` at index `i`. -/
def loadWords4 (e : ByteOrder) (buf : List Nat) (i : Nat) : Option (Nat × Nat × Nat × Nat) := do
  let w0 ← load32 e buf i
  let w1 ← load32 e buf (i + 4)
  let w2 ← load32 e buf (i + 8)
  let w3 ← load32 e buf (i + 12)
  some (w0, w1, w2, w3)

/-- Method `IPPacket::UpdateIPv6Address` (ip.cpp 241-260). The declaration of
`struct ipv6_header` is in ip.hpp, which is not among the sources; in the fixed 40-byte
IPv6 header that the spec names, `proto` is the byte at offset 6, `srcaddr` the sixteen
bytes at offset 8 and `dstaddr` the sixteen bytes at offset 24. The old addresses, `pld`
and `psz` are computed and not used, and the only case of the `switch` returns. -/
def UpdateIPv6Address (e : ByteOrder) (p : IPPacket) (src dst : Nat) : Option IPPacket :=
  if p.sz ≤ 40 then some p
  else do
    let _oldSrc ← loadBytes p.buf 8 16
    let _oldDst ← loadBytes p.buf 24 16
    let buf1 ← storeBytes p.buf 8 (HUIntToIn6 e src)
    let buf2 ← storeBytes buf1 24 (HUIntToIn6 e dst)
    let _pld := 40
    let _psz := p.sz - 40
    let proto ← load8 buf2 6
    match proto with
    | 6 => some { buf := buf2, sz := p.sz }
    | _ => some { buf := buf2, sz := p.sz }

/-- A 60-byte TCP segment over IPv6 from 2001:db8::1 to 2001:db8::2 in a 78-byte array;
the TCP checksum field (bytes 56 and 57) holds the valid checksum `03 E4`. -/
def tcp6Packet : IPPacket :=
  { buf := [0x60, 0, 0, 0, 0, 20, 6, 64,
            0x20, 0x01, 0x0d, 0xb8, 0, 0, 0, 0, 0, 0, 0, 0, 0, 0, 0, 1,
            0x20, 0x01, 0x0d, 0xb8, 0, 0, 0, 0, 0, 0, 0, 0, 0, 0, 0, 2,
            0x30, 0x39, 0, 80, 0, 0, 0, 1, 0, 0, 0, 0, 0x50, 0x02, 0x20, 0, 0x03, 0xE4, 0, 0]
           ++ List.replicate 18 0,
    sz := 60 }

/-! ## Checksums recomputed from scratch -/

/-- The header with its checksum field (bytes 10 and 11) zeroed. -/
def zeroCheck (hdr : List Nat) : List Nat := poke hdr 10 [0, 0]

/-- The header with the given wire-order addresses substituted for `saddr` and `daddr`. -/
def withAddresses (e : ByteOrder) (hdr : List Nat) (src dst : Nat) : List Nat :=
  poke (poke hdr 12 (bytes32 e src)) 16 (bytes32 e dst)

/-- The header checksum recomputed from scratch: zero the checksum field, sum all 16-bit
header words with end-around carry and complement, by `ipchksum`. -/
def headerChecksum (e : ByteOrder) (hdr : List Nat) : Nat := ipchksum e (zeroCheck hdr) 0

/-- The IPv4 pseudo-header of the transport checksums: source address, destination
address, a zero byte, the protocol and the 16-bit length in wire order. -/
def pseudoHeader (e : ByteOrder) (src dst proto len : Nat) : List Nat :=
  bytes32 e src ++ bytes32 e dst ++ [0, proto, len / 256 % 256, len % 256]

/-- Offset of the checksum field within the transport header: 16 for TCP, 6 for UDP,
UDP-Lite and DCCP. -/
def checksumOffset (proto : Nat) : Nat := if proto = 6 then 16 else 6

/-- The transport checksum recomputed from scratch over the pseudo-header and the covered
bytes `seg` of the transport segment, with the checksum field zeroed; for UDP and UDP-Lite
a computed `0x0000` is transmitted as `0xFFFF`. -/
def transportChecksum (e : ByteOrder) (src dst proto len : Nat) (seg : List Nat) : Nat :=
  let c := ipchksum e (pseudoHeader e src dst proto len ++ poke seg (checksumOffset proto) [0, 0]) 0
  if (proto = 17 ∨ proto = 136) ∧ c = 0 then 0xFFFF else c

/-- Unreduced sum of the native 16-bit words of a byte list, as `ipchksum` reads them. -/
def wordSum (e : ByteOrder) : List Nat → Nat
  | b0 :: b1 :: rest => word16 e b0 b1 + wordSum e rest
  | [b0] => word16 e b0 0
  | [] => 0

/-! ## Address conversions and loading -/

/-- Method `IPPacket::In6ToHUInt` (ip.cpp 18-32). The `in6_addr` is given by its sixteen
bytes; `s6_addr32[i]` is the native 32-bit word at bytes `4 * i` to `4 * i + 3`. The branch
under `#if __BYTE_ORDER == __BIG_ENDIAN` is the one taken on a big-endian host. -/
def In6ToHUInt (e : ByteOrder) (addr : List Nat) : Nat :=
  let s6_addr32 (i : Nat) : Nat :=
    word32 e (addr.getD (4 * i) 0) (addr.getD (4 * i + 1) 0) (addr.getD (4 * i + 2) 0)
      (addr.getD (4 * i + 3) 0)
  match e with
  | .big =>
      (s6_addr32 0 ||| (s6_addr32 1 <<< 32) ||| (s6_addr32 2 <<< 64) ||| (s6_addr32 3 <<< 96))
        % 2 ^ 128
  | .little =>
      (ntohl e (s6_addr32 3) ||| (ntohl e (s6_addr32 2) <<< 32)
        ||| (ntohl e (s6_addr32 1) <<< 64) ||| (ntohl e (s6_addr32 0) <<< 96)) % 2 ^ 128

/-- Method `IPPacket::ExpandV4` (ip.cpp 43-49) on the host-order value `i.h`. -/
def ExpandV4 (i : Nat) : Nat :=
  let ff := 0xff
  let expanded := i % 2 ^ 32
  ((ff <<< 40) ||| (ff <<< 32) ||| expanded) % 2 ^ 128

/-- Method `IPPacket::TruncateV6` (ip.cpp 51-57): `(uint32_t)(i.h & 0x00000000ffffffffUL)`. -/
def TruncateV6 (i : Nat) : Nat := (i &&& 0x00000000ffffffff) % 2 ^ 32

/-- Method `IPPacket::Load` (ip.cpp 71-79); `pkt` is the list of the `pkt.sz` bytes at
`pkt.base`. The result is the packet after the call together with the returned flag. -/
def Load (p : IPPacket) (pkt : List Nat) : IPPacket × Bool :=
  if pkt.length > p.buf.length then (p, false)
  else ({ buf := poke p.buf 0 pkt, sz := pkt.length }, true)

/-- The sixteen-byte big-endian (wire order) encoding of a 128-bit value. -/
def beBytes128 (x : Nat) : List Nat := (leBytes 16 x).reverse

/-- The builtin 16-bit byte swap. -/
def bswap16 (x : Nat) : Nat := (x % 256) * 256 + x / 256 % 256

/-- The builtin 32-bit byte swap. -/
def bswap32 (x : Nat) : Nat :=
  (x % 256) * 16777216 + (x / 256 % 256) * 65536 + (x / 65536 % 256) * 256
    + x / 16777216 % 256

/-- The end-around-carry reduction carried to the end: repeat
`sum := (sum & 0xFFFF) + (sum >> 16)` until `sum < 0x10000`. -/
def fullFold (sum : Nat) : Nat :=
  if _h : sum < 0x10000 then sum
  else fullFold ((sum &&& 0xFFFF) + (sum >>> 16))
termination_by sum
decreasing_by
  rw [Nat.and_pow_two_sub_one_eq_mod sum 16, Nat.shiftRight_eq_div_pow]
  omega

/-- The four words of an address are 32-bit values. -/
def words32 (x : Nat × Nat × Nat × Nat) : Prop :=
  x.1 < 4294967296 ∧ x.2.1 < 4294967296 ∧ x.2.2.1 < 4294967296 ∧ x.2.2.2 < 4294967296

instance (x : Nat × Nat × Nat × Nat) : Decidable (words32 x) := by
  unfold words32; infer_instance

/-- The loopback address `::1` in wire order. -/
def loopback6 : List Nat := [0, 0, 0, 0, 0, 0, 0, 0, 0, 0, 0, 0, 0, 0, 0, 1]

/-! ## Total reads and closed forms used in the proofs -/

/-- The sum of the two 16-bit halves of a 32-bit value. -/
def halves (x : Nat) : Nat := x % 65536 + x / 65536

/-- Total read of one byte, `0` outside the array. -/
def peek (buf : List Nat) (i : Nat) : Nat := (buf[i]?).getD 0

/-- Total native 16-bit read. -/
def rd16 (e : ByteOrder) (buf : List Nat) (i : Nat) : Nat :=
  word16 e (peek buf i) (peek buf (i + 1))

/-- Total native 32-bit read. -/
def rd32 (e : ByteOrder) (buf : List Nat) (i : Nat) : Nat :=
  word32 e (peek buf i) (peek buf (i + 1)) (peek buf (i + 2)) (peek buf (i + 3))

/-- The value the TCP and DCCP helper leaves in the checksum field. -/
def tcpField (c os od ns nd : Nat) : Nat :=
  if deltaIPv4Checksum c os od ns nd = 0xFFFF then 0
  else deltaIPv4Checksum c os od ns nd

/-- Header length in bytes, `hdr->ihl * 4`, read totally. -/
def ihsOf (buf : List Nat) : Nat := peek buf 0 % 16 * 4

/-- Fragment byte offset `(ntohs(hdr->frag_off) & 0x1Fff) * 8`, read totally. -/
def fragoffOf (e : ByteOrder) (buf : List Nat) : Nat := (ntohs e (rd16 e buf 6) &&& 0x1FFF) * 8

/-- Array contents after the transport step of `UpdateIPv4Address`, in closed form. -/
def l4Buf (e : ByteOrder) (p : IPPacket) (ns nd : Nat) : List Nat :=
  if ihsOf p.buf ≤ p.sz then
    if peek p.buf 9 = 6 then
      if fragoffOf e p.buf > 16 then p.buf
      else poke p.buf (ihsOf p.buf + 16 - fragoffOf e p.buf)
        (bytes16 e (tcpField (rd16 e p.buf (ihsOf p.buf + 16 - fragoffOf e p.buf))
          (rd32 e p.buf 12) (rd32 e p.buf 16) ns nd))
    else if peek p.buf 9 = 17 ∨ peek p.buf 9 = 136 then
      if fragoffOf e p.buf > 6 then p.buf
      else if rd16 e p.buf (ihsOf p.buf + 6) = 0 then p.buf
      else poke p.buf (ihsOf p.buf + 6)
        (bytes16 e (deltaIPv4Checksum (rd16 e p.buf (ihsOf p.buf + 6))
          (rd32 e p.buf 12) (rd32 e p.buf 16) ns nd))
    else if peek p.buf 9 = 33 then
      if fragoffOf e p.buf > 6 then p.buf
      else poke p.buf (ihsOf p.buf + 6 - fragoffOf e p.buf)
        (bytes16 e (tcpField (rd16 e p.buf (ihsOf p.buf + 6 - fragoffOf e p.buf))
          (rd32 e p.buf 12) (rd32 e p.buf 16) ns nd))
    else p.buf
  else p.buf

/-- Array contents after `UpdateIPv4Address`, in closed form. -/
def rewriteBuf (e : ByteOrder) (p : IPPacket) (ns nd : Nat) : List Nat :=
  poke (poke (poke (l4Buf e p ns nd) 10
    (bytes16 e (deltaIPv4Checksum (rd16 e (l4Buf e p ns nd) 10)
      (rd32 e p.buf 12) (rd32 e p.buf 16) ns nd))) 12 (bytes32 e ns)) 16 (bytes32 e nd)

/-- Which transport helper runs and reaches its store: 1 for `deltaChecksumIPv4TCP`,
2 for `deltaChecksumIPv4UDP`, 0 for neither. -/
def l4KindOf (ihs sz proto fragoff : Nat) : Nat :=
  if ihs ≤ sz then
    if proto = 6 then (if fragoff > 16 then 0 else 1)
    else if proto = 17 ∨ proto = 136 then (if fragoff > 6 then 0 else 2)
    else if proto = 33 then (if fragoff > 6 then 0 else 1)
    else 0
  else 0

/-- Index of the transport checksum field (index 20 stands in when no helper stores). -/
def l4IndexOf (ihs sz proto fragoff : Nat) : Nat :=
  if ihs ≤ sz then
    if proto = 6 then (if fragoff > 16 then 20 else ihs + 16 - fragoff)
    else if proto = 17 ∨ proto = 136 then (if fragoff > 6 then 20 else ihs + 6)
    else if proto = 33 then (if fragoff > 6 then 20 else ihs + 6 - fragoff)
    else 20
  else 20

/-- Value of the transport checksum field after the helper of the given kind. -/
def l4ValueOf (kind c os od ns nd : Nat) : Nat :=
  if kind = 1 then tcpField c os od ns nd
  else if kind = 2 then (if c = 0 then 0 else deltaIPv4Checksum c os od ns nd)
  else c

/-! ## Concrete packets -/

/-- A 78-byte array holding a 40-byte TCP packet from 10.0.0.1 to 8.8.8.8 with correct
header and TCP checksums. -/
def samplePacket : IPPacket :=
  { buf := [0x45, 0, 0, 40, 0, 0, 0x40, 0, 64, 6, 0x20, 0xC0, 10, 0, 0, 1, 8, 8, 8, 8,
            0x30, 0x39, 0, 80, 0, 0, 0, 1, 0, 0, 0, 0, 0x50, 0x02, 0x20, 0, 0x45, 0x48, 0, 0]
           ++ List.replicate 38 0,
    sz := 40 }

/-- A 20-byte packet whose first byte announces a header length of zero words, with
protocol 17 and the flag word 0x4000 in bytes 6 and 7. -/
def zeroIhlPacket : IPPacket :=
  { buf := [0x40, 0, 0, 20, 0, 0, 0x40, 0, 64, 17, 0x25, 0xC9, 10, 0, 0, 1, 8, 8, 8, 8]
           ++ List.replicate 58 0,
    sz := 20 }

/-- A 78-byte array whose packet is a bare 20-byte header with protocol 6: `sz = 20`. -/
def bareHeaderPacket : IPPacket :=
  { buf := [0x45, 0, 0, 20, 0, 0, 0, 0, 64, 6, 0x60, 0xD4, 10, 0, 0, 1, 8, 8, 8, 8]
           ++ List.replicate 58 0,
    sz := 20 }

/-- A 36-byte UDP packet from 10.0.0.1 to 8.8.8.8 in a 78-byte array, with correct header
and UDP checksums. -/
def udpPacket : IPPacket :=
  { buf := [0x45, 0, 0, 36, 0, 0, 0x40, 0, 64, 17, 0x20, 0xB9, 10, 0, 0, 1, 8, 8, 8, 8,
            0x30, 0x39, 0, 53, 0, 16, 0xA5, 0x3B, 1, 2, 3, 4, 5, 6, 7, 8]
           ++ List.replicate 42 0,
    sz := 36 }

/-- Index of the checksum field that `UpdateIPv4Address` hands to `deltaChecksumIPv4TCP`
(protocol 6 with checksum offset 16, protocol 33 with checksum offset 6), when the helper
is called and does not return early; `none` otherwise. -/
def tcpCheckIndex (e : ByteOrder) (p : IPPacket) : Option Nat := do
  let hl ← ihl p.buf
  let frag_off ← load16 e p.buf 6
  let fragoff := (ntohs e frag_off &&& 0x1FFF) * 8
  let protocol ← load8 p.buf 9
  if hl * 4 ≤ p.sz then
    if protocol = 6 then (if fragoff > 16 then none else some (hl * 4 + 16 - fragoff))
    else if protocol = 33 then (if fragoff > 6 then none else some (hl * 4 + 6 - fragoff))
    else none
  else none

/-- A 28-byte ICMP echo request from 10.0.0.1 to 112.225.0.0; its header checksum, computed
from scratch, is `0x0000`. -/
def zeroCheckPacket : IPPacket :=
  { buf := [0x45, 0, 0, 28, 0, 0, 0, 0, 64, 1, 0, 0, 10, 0, 0, 1, 0x70, 0xE1, 0, 0,
            8, 0, 0xF7, 0xFF, 0, 0, 0, 0]
           ++ List.replicate 50 0,
    sz := 28 }

/-- The ICMP packet of `zeroCheckPacket` sent from 10.0.0.2 instead: its header checksum,
computed from scratch, is `0xFFFE` (bytes `FF FE`). -/
def nearZeroCheckPacket : IPPacket :=
  { buf := [0x45, 0, 0, 28, 0, 0, 0, 0, 64, 1, 0xFF, 0xFE, 10, 0, 0, 2, 0x70, 0xE1, 0, 0,
            8, 0, 0xF7, 0xFF, 0, 0, 0, 0]
           ++ List.replicate 50 0,
    sz := 28 }

/-- A 40-byte array region holding a later fragment (fragment byte offset 24) of a TCP
datagram from 10.0.0.1 to 8.8.8.8, in a 78-byte array. -/
def laterFragmentPacket : IPPacket :=
  { buf := [0x45, 0, 0, 40, 0, 1, 0, 3, 64, 6, 0x60, 0xBC, 10, 0, 0, 1, 8, 8, 8, 8,
            1, 2, 3, 4, 5, 6, 7, 8, 9, 10, 11, 12, 13, 14, 15, 16, 17, 18, 19, 20]
           ++ List.replicate 38 0,
    sz := 40 }

/-! ## Arithmetic of the folds -/

theorem and_ffff (x : Nat) : x &&& 0xFFFF = x % 65536 :=
  Nat.and_pow_two_sub_one_eq_mod x 16

theorem and_1fff (x : Nat) : x &&& 0x1FFF = x % 8192 :=
  Nat.and_pow_two_sub_one_eq_mod x 13

theorem shr_16 (x : Nat) : x >>> 16 = x / 65536 :=
  Nat.shiftRight_eq_div_pow x 16

theorem fold2_cases (s : Nat) (h : s < 4294967296) :
    fold2 s % 65536 = if s % 65536 + s / 65536 < 65536 then s % 65536 + s / 65536
      else s % 65536 + s / 65536 - 65535 := by
  simp only [fold2, and_ffff, shr_16]
  have h1 : s / 65536 < 65536 := by omega
  have h2 : s % 65536 < 65536 := Nat.mod_lt _ (by decide)
  generalize s % 65536 = lo at *
  generalize s / 65536 = hi at *
  split <;> omega

theorem halves_mod (s : Nat) : (s % 65536 + s / 65536) % 65535 = s % 65535 := by
  omega

theorem fold2_mod (s : Nat) (h : s < 4294967296) :
    (fold2 s % 65536) % 65535 = s % 65535 := by
  rw [fold2_cases s h, ← halves_mod s]
  have h1 : s / 65536 < 65536 := by omega
  have h2 : s % 65536 < 65536 := Nat.mod_lt _ (by decide)
  generalize s % 65536 = lo at *
  generalize s / 65536 = hi at *
  split <;> omega

theorem fold2_eq_zero (s : Nat) (h : s < 4294967296) :
    fold2 s % 65536 = 0 ↔ s = 0 := by
  rw [fold2_cases s h]
  split <;> omega

theorem ADD32CS_eq (x : Nat) : ADD32CS x = halves x := by
  simp only [ADD32CS, halves, and_ffff, shr_16]

theorem SUB32CS_eq (x : Nat) (h : x < 4294967296) :
    SUB32CS x = 131070 - halves x := by
  simp only [SUB32CS, halves, not32, and_ffff, shr_16]
  omega

theorem halves_le (x : Nat) (h : x < 4294967296) : halves x ≤ 131070 := by
  unfold halves; omega

theorem halves_eq_zero (x : Nat) : halves x = 0 ↔ x = 0 := by
  unfold halves; omega

theorem halves_eq_max (x : Nat) (h : x < 4294967296) :
    halves x = 131070 ↔ x = 4294967295 := by
  unfold halves; omega

theorem deltaIPv4Sum_eq (c os od ns nd : Nat) (hns : ns < 4294967296)
    (hnd : nd < 4294967296) :
    deltaIPv4Sum c os od ns nd
      = c + halves os + halves od + (131070 - halves ns) + (131070 - halves nd) := by
  simp only [deltaIPv4Sum, ADD32CS_eq, SUB32CS_eq _ hns, SUB32CS_eq _ hnd]

theorem deltaIPv4Sum_lt (c os od ns nd : Nat) (hc : c < 65536) (hos : os < 4294967296)
    (hod : od < 4294967296) (hns : ns < 4294967296) (hnd : nd < 4294967296) :
    deltaIPv4Sum c os od ns nd < 4294967296 := by
  rw [deltaIPv4Sum_eq c os od ns nd hns hnd]
  have := halves_le os hos
  have := halves_le od hod
  omega

theorem deltaIPv4Checksum_lt (c os od ns nd : Nat) :
    deltaIPv4Checksum c os od ns nd < 65536 := by
  simp only [deltaIPv4Checksum, and_ffff]
  exact Nat.mod_lt _ (by decide)

theorem deltaIPv4Checksum_mod (c os od ns nd : Nat) (hc : c < 65536)
    (hos : os < 4294967296) (hod : od < 4294967296) (hns : ns < 4294967296)
    (hnd : nd < 4294967296) :
    deltaIPv4Checksum c os od ns nd % 65535
      = (c + halves os + halves od + (131070 - halves ns) + (131070 - halves nd)) % 65535 := by
  have hlt := deltaIPv4Sum_lt c os od ns nd hc hos hod hns hnd
  simp only [deltaIPv4Checksum, and_ffff]
  rw [Nat.mod_eq_of_lt hlt, fold2_mod _ hlt, deltaIPv4Sum_eq c os od ns nd hns hnd]

theorem deltaIPv4Checksum_eq_zero (c os od ns nd : Nat) (hc : c < 65536)
    (hos : os < 4294967296) (hod : od < 4294967296) (hns : ns < 4294967296)
    (hnd : nd < 4294967296) :
    deltaIPv4Checksum c os od ns nd = 0
      ↔ c + halves os + halves od + (131070 - halves ns) + (131070 - halves nd) = 0 := by
  have hlt := deltaIPv4Sum_lt c os od ns nd hc hos hod hns hnd
  simp only [deltaIPv4Checksum, and_ffff]
  rw [Nat.mod_eq_of_lt hlt, fold2_eq_zero _ hlt, deltaIPv4Sum_eq c os od ns nd hns hnd]

/-! ## Memory lemmas -/

theorem getElem?_eq_peek (buf : List Nat) (i : Nat) (h : i < buf.length) :
    buf[i]? = some (peek buf i) := by
  simp [peek, List.getElem?_eq_getElem h]

theorem load8_eq (buf : List Nat) (i : Nat) (h : i < buf.length) :
    load8 buf i = some (peek buf i) := getElem?_eq_peek buf i h

theorem load16_eq (e : ByteOrder) (buf : List Nat) (i : Nat) (h : i + 2 ≤ buf.length) :
    load16 e buf i = some (rd16 e buf i) := by
  simp only [load16, rd16, getElem?_eq_peek buf i (by omega),
    getElem?_eq_peek buf (i + 1) (by omega)]

theorem load32_eq (e : ByteOrder) (buf : List Nat) (i : Nat) (h : i + 4 ≤ buf.length) :
    load32 e buf i = some (rd32 e buf i) := by
  simp only [load32, rd32, getElem?_eq_peek buf i (by omega),
    getElem?_eq_peek buf (i + 1) (by omega), getElem?_eq_peek buf (i + 2) (by omega),
    getElem?_eq_peek buf (i + 3) (by omega)]

theorem store16_eq (e : ByteOrder) (buf : List Nat) (i v : Nat) (h : i + 2 ≤ buf.length) :
    store16 e buf i v = some (poke buf i (bytes16 e v)) := by
  simp only [store16, if_pos h]

theorem store32_eq (e : ByteOrder) (buf : List Nat) (i v : Nat) (h : i + 4 ≤ buf.length) :
    store32 e buf i v = some (poke buf i (bytes32 e v)) := by
  simp only [store32, if_pos h]

theorem length_poke (bs : List Nat) : ∀ (buf : List Nat) (i : Nat),
    (poke buf i bs).length = buf.length := by
  induction bs with
  | nil => intro buf i; rfl
  | cons b bs ih => intro buf i; simp [poke, ih]

theorem peek_set (buf : List Nat) (i j a : Nat) :
    peek (buf.set i a) j = if i = j ∧ i < buf.length then a else peek buf j := by
  unfold peek
  rw [List.getElem?_set]
  by_cases hij : i = j
  · subst hij
    by_cases hi : i < buf.length
    · simp [hi]
    · simp [hi, List.getElem?_eq_none (Nat.le_of_not_lt hi)]
  · simp [hij]

theorem peek_poke (bs : List Nat) : ∀ (buf : List Nat) (i j : Nat),
    peek (poke buf i bs) j
      = if i ≤ j ∧ j < i + bs.length ∧ j < buf.length then peek bs (j - i) else peek buf j := by
  induction bs with
  | nil =>
    intro buf i j
    simp only [poke, List.length_nil, Nat.add_zero]
    rw [if_neg (by omega)]
  | cons b bs ih =>
    intro buf i j
    simp only [poke, ih, peek_set, List.length_set, List.length_cons]
    by_cases h1 : i = j
    · subst h1
      by_cases h2 : i < buf.length
      · simp [h2, peek]
      · simp [h2]
    · by_cases h3 : i + 1 ≤ j ∧ j < i + 1 + bs.length ∧ j < buf.length
      · have h4 : i ≤ j ∧ j < i + (bs.length + 1) ∧ j < buf.length := by omega
        have h5 : j - i = (j - (i + 1)) + 1 := by omega
        rw [if_pos h3, if_pos h4, h5]
        simp [peek]
      · have h4 : ¬ (i ≤ j ∧ j < i + (bs.length + 1) ∧ j < buf.length) := by omega
        rw [if_neg h3, if_neg h4]
        simp [h1]

theorem peek_poke_frame (bs buf : List Nat) (i j : Nat) (h : j < i ∨ i + bs.length ≤ j) :
    peek (poke buf i bs) j = peek buf j := by
  rw [peek_poke, if_neg (by omega)]

theorem bytes16_length (e : ByteOrder) (v : Nat) : (bytes16 e v).length = 2 := by
  cases e <;> rfl

theorem bytes32_length (e : ByteOrder) (v : Nat) : (bytes32 e v).length = 4 := by
  cases e <;> rfl

theorem rd16_poke_frame (e : ByteOrder) (bs buf : List Nat) (i j : Nat)
    (h : j + 2 ≤ i ∨ i + bs.length ≤ j) :
    rd16 e (poke buf i bs) j = rd16 e buf j := by
  simp only [rd16, peek_poke_frame bs buf i j (by omega),
    peek_poke_frame bs buf i (j + 1) (by omega)]

theorem rd32_poke_frame (e : ByteOrder) (bs buf : List Nat) (i j : Nat)
    (h : j + 4 ≤ i ∨ i + bs.length ≤ j) :
    rd32 e (poke buf i bs) j = rd32 e buf j := by
  simp only [rd32, peek_poke_frame bs buf i j (by omega),
    peek_poke_frame bs buf i (j + 1) (by omega), peek_poke_frame bs buf i (j + 2) (by omega),
    peek_poke_frame bs buf i (j + 3) (by omega)]

theorem rd16_poke_same (e : ByteOrder) (buf : List Nat) (i v : Nat)
    (h : i + 2 ≤ buf.length) (hv : v < 65536) :
    rd16 e (poke buf i (bytes16 e v)) i = v := by
  have h0 : i ≤ i ∧ i < i + (bytes16 e v).length ∧ i < buf.length := by
    rw [bytes16_length]; omega
  have h1 : i ≤ i + 1 ∧ i + 1 < i + (bytes16 e v).length ∧ i + 1 < buf.length := by
    rw [bytes16_length]; omega
  simp only [rd16, peek_poke, if_pos h0, if_pos h1, Nat.sub_self, Nat.add_sub_cancel_left]
  cases e <;> simp [bytes16, peek, word16] <;> omega

theorem rd32_poke_same (e : ByteOrder) (buf : List Nat) (i v : Nat)
    (h : i + 4 ≤ buf.length) (hv : v < 4294967296) :
    rd32 e (poke buf i (bytes32 e v)) i = v := by
  have h0 : i ≤ i ∧ i < i + (bytes32 e v).length ∧ i < buf.length := by
    rw [bytes32_length]; omega
  have h1 : i ≤ i + 1 ∧ i + 1 < i + (bytes32 e v).length ∧ i + 1 < buf.length := by
    rw [bytes32_length]; omega
  have h2 : i ≤ i + 2 ∧ i + 2 < i + (bytes32 e v).length ∧ i + 2 < buf.length := by
    rw [bytes32_length]; omega
  have h3 : i ≤ i + 3 ∧ i + 3 < i + (bytes32 e v).length ∧ i + 3 < buf.length := by
    rw [bytes32_length]; omega
  simp only [rd32, peek_poke, if_pos h0, if_pos h1, if_pos h2, if_pos h3, Nat.sub_self,
    Nat.add_sub_cancel_left]
  cases e <;> simp [bytes32, peek, word32] <;> omega

theorem ext_peek (l1 l2 : List Nat) (hlen : l1.length = l2.length)
    (h : ∀ j, j < l1.length → peek l1 j = peek l2 j) : l1 = l2 := by
  apply List.ext_getElem hlen
  intro n h1 h2
  have := h n h1
  simpa [peek, List.getElem?_eq_getElem h1, List.getElem?_eq_getElem h2] using this

theorem poke_poke_same (buf xs ys : List Nat) (i : Nat) (hl : xs.length = ys.length) :
    poke (poke buf i xs) i ys = poke buf i ys := by
  apply ext_peek
  · simp only [length_poke]
  · intro j _
    simp only [peek_poke, length_poke, hl]
    split <;> rfl

theorem peek_lt (buf : List Nat) (hb : bytesOk buf) (i : Nat) : peek buf i < 256 := by
  unfold peek
  by_cases h : i < buf.length
  · rw [List.getElem?_eq_getElem h]
    exact hb _ (List.getElem_mem h)
  · rw [List.getElem?_eq_none (Nat.le_of_not_lt h)]
    decide

theorem rd16_lt (e : ByteOrder) (buf : List Nat) (hb : bytesOk buf) (i : Nat) :
    rd16 e buf i < 65536 := by
  have h0 := peek_lt buf hb i
  have h1 := peek_lt buf hb (i + 1)
  cases e <;> simp only [rd16, word16] <;> omega

theorem rd32_lt (e : ByteOrder) (buf : List Nat) (hb : bytesOk buf) (i : Nat) :
    rd32 e buf i < 4294967296 := by
  have h0 := peek_lt buf hb i
  have h1 := peek_lt buf hb (i + 1)
  have h2 := peek_lt buf hb (i + 2)
  have h3 := peek_lt buf hb (i + 3)
  cases e <;> simp only [rd32, word32] <;> omega

theorem poke_rd16_self (e : ByteOrder) (buf : List Nat) (hb : bytesOk buf) (i : Nat) :
    poke buf i (bytes16 e (rd16 e buf i)) = buf := by
  apply ext_peek
  · simp only [length_poke]
  · intro j hj
    rw [length_poke] at hj
    rw [peek_poke, bytes16_length]
    split
    · rename_i h
      have h0 := peek_lt buf hb i
      have h1 := peek_lt buf hb (i + 1)
      have hj2 : j = i ∨ j = i + 1 := by omega
      rcases hj2 with rfl | rfl
      · cases e <;> simp [bytes16, rd16, word16, peek] <;> simp only [peek] at h0 h1 <;> omega
      · cases e <;> simp [bytes16, rd16, word16, peek] <;> simp only [peek] at h0 h1 <;> omega
    · rfl

theorem poke_rd32_self (e : ByteOrder) (buf : List Nat) (hb : bytesOk buf) (i : Nat) :
    poke buf i (bytes32 e (rd32 e buf i)) = buf := by
  apply ext_peek
  · simp only [length_poke]
  · intro j hj
    rw [length_poke] at hj
    rw [peek_poke, bytes32_length]
    split
    · rename_i h
      have h0 := peek_lt buf hb i
      have h1 := peek_lt buf hb (i + 1)
      have h2 := peek_lt buf hb (i + 2)
      have h3 := peek_lt buf hb (i + 3)
      have hj2 : j = i ∨ j = i + 1 ∨ j = i + 2 ∨ j = i + 3 := by omega
      rcases hj2 with rfl | rfl | rfl | rfl
      · cases e <;> simp [bytes32, rd32, word32, peek] <;> simp only [peek] at h0 h1 h2 h3 <;> omega
      · cases e <;> simp [bytes32, rd32, word32, peek] <;> simp only [peek] at h0 h1 h2 h3 <;> omega
      · cases e <;> simp [bytes32, rd32, word32, peek] <;> simp only [peek] at h0 h1 h2 h3 <;> omega
      · cases e <;> simp [bytes32, rd32, word32, peek] <;> simp only [peek] at h0 h1 h2 h3 <;> omega
    · rfl

theorem bytesOk_set (buf : List Nat) (hb : bytesOk buf) (i a : Nat) (ha : a < 256) :
    bytesOk (buf.set i a) := by
  intro b hmem
  rcases List.mem_or_eq_of_mem_set hmem with h | h
  · exact hb b h
  · rw [h]; exact ha

theorem bytesOk_poke (bs : List Nat) (hbs : bytesOk bs) : ∀ (buf : List Nat) (i : Nat),
    bytesOk buf → bytesOk (poke buf i bs) := by
  induction bs with
  | nil => intro buf i hb; exact hb
  | cons b bs ih =>
    intro buf i hb
    simp only [poke]
    apply ih (fun x hx => hbs x (List.mem_cons_of_mem _ hx))
    exact bytesOk_set buf hb i b (hbs b (List.mem_cons_self _ _))

theorem bytesOk_bytes16 (e : ByteOrder) (v : Nat) : bytesOk (bytes16 e v) := by
  intro b hb
  cases e <;> simp [bytes16] at hb <;> omega

theorem bytesOk_bytes32 (e : ByteOrder) (v : Nat) : bytesOk (bytes32 e v) := by
  intro b hb
  cases e <;> simp [bytes32] at hb <;> omega

theorem deltaChecksumIPv4TCP_skip (e : ByteOrder) (buf : List Nat)
    (pld psz fragoff chksumoff os od ns nd : Nat) (h : fragoff > chksumoff) :
    deltaChecksumIPv4TCP e buf pld psz fragoff chksumoff os od ns nd = some buf := by
  simp only [deltaChecksumIPv4TCP, if_pos h]

theorem deltaChecksumIPv4TCP_eq (e : ByteOrder) (buf : List Nat)
    (pld psz fragoff chksumoff os od ns nd : Nat) (h : ¬ fragoff > chksumoff)
    (hk : pld + chksumoff - fragoff + 2 ≤ buf.length) :
    deltaChecksumIPv4TCP e buf pld psz fragoff chksumoff os od ns nd
      = some (poke buf (pld + chksumoff - fragoff)
          (bytes16 e (tcpField (rd16 e buf (pld + chksumoff - fragoff)) os od ns nd))) := by
  have hlen : pld + chksumoff - fragoff + 2
      ≤ (poke buf (pld + chksumoff - fragoff) (bytes16 e (deltaIPv4Checksum
          (rd16 e buf (pld + chksumoff - fragoff)) os od ns nd))).length := by
    rw [length_poke]; exact hk
  simp only [deltaChecksumIPv4TCP, if_neg h, load16_eq e buf _ hk, store16_eq e buf _ _ hk,
    Option.bind_eq_bind, Option.some_bind, load16_eq e _ _ hlen, store16_eq e _ _ _ hlen,
    rd16_poke_same e buf _ _ hk (deltaIPv4Checksum_lt _ _ _ _ _), tcpField]
  split
  · rw [poke_poke_same _ _ _ _ (by simp only [bytes16_length])]
  · rfl

theorem deltaChecksumIPv4UDP_skip (e : ByteOrder) (buf : List Nat)
    (pld psz fragoff os od ns nd : Nat) (h : fragoff > 6) :
    deltaChecksumIPv4UDP e buf pld psz fragoff os od ns nd = some buf := by
  simp only [deltaChecksumIPv4UDP, if_pos h]

theorem deltaChecksumIPv4UDP_eq (e : ByteOrder) (buf : List Nat)
    (pld psz fragoff os od ns nd : Nat) (h : ¬ fragoff > 6)
    (hk : pld + 6 + 2 ≤ buf.length) :
    deltaChecksumIPv4UDP e buf pld psz fragoff os od ns nd
      = some (if rd16 e buf (pld + 6) = 0 then buf
          else poke buf (pld + 6)
            (bytes16 e (deltaIPv4Checksum (rd16 e buf (pld + 6)) os od ns nd))) := by
  simp only [deltaChecksumIPv4UDP, if_neg h, load16_eq e buf _ hk, store16_eq e buf _ _ hk,
    Option.bind_eq_bind, Option.some_bind]
  split <;> rfl

theorem ihsOf_le (buf : List Nat) : ihsOf buf ≤ 60 := by
  unfold ihsOf; omega

theorem length_l4Buf (e : ByteOrder) (p : IPPacket) (ns nd : Nat) :
    (l4Buf e p ns nd).length = p.buf.length := by
  unfold l4Buf
  repeat (first | rfl | rw [length_poke] | split)

theorem l4Checksum_eq (e : ByteOrder) (p : IPPacket) (ns nd : Nat)
    (hcap : 78 ≤ p.buf.length) :
    l4Checksum e p (peek p.buf 0 % 16) (rd32 e p.buf 12) (rd32 e p.buf 16) ns nd
      = some (l4Buf e p ns nd) := by
  have hihs := ihsOf_le p.buf
  unfold l4Checksum
  change (if ihsOf p.buf ≤ p.sz then _ else _) = _
  unfold l4Buf
  by_cases h1 : ihsOf p.buf ≤ p.sz
  · simp only [if_pos h1, load16_eq e p.buf 6 (by omega), load8_eq p.buf 9 (by omega),
      Option.bind_eq_bind, Option.some_bind]
    change (match peek p.buf 9 with
      | 6 => deltaChecksumIPv4TCP e p.buf (ihsOf p.buf) (p.sz - ihsOf p.buf)
          (fragoffOf e p.buf) 16 (rd32 e p.buf 12) (rd32 e p.buf 16) ns nd
      | 17 => deltaChecksumIPv4UDP e p.buf (ihsOf p.buf) (p.sz - ihsOf p.buf)
          (fragoffOf e p.buf) (rd32 e p.buf 12) (rd32 e p.buf 16) ns nd
      | 136 => deltaChecksumIPv4UDP e p.buf (ihsOf p.buf) (p.sz - ihsOf p.buf)
          (fragoffOf e p.buf) (rd32 e p.buf 12) (rd32 e p.buf 16) ns nd
      | 33 => deltaChecksumIPv4TCP e p.buf (ihsOf p.buf) (p.sz - ihsOf p.buf)
          (fragoffOf e p.buf) 6 (rd32 e p.buf 12) (rd32 e p.buf 16) ns nd
      | _ => some p.buf) = _
    generalize fragoffOf e p.buf = fo
    generalize peek p.buf 9 = proto
    split
    · simp only [if_true]
      by_cases h2 : fo > 16
      · rw [deltaChecksumIPv4TCP_skip _ _ _ _ _ _ _ _ _ _ h2, if_pos h2]
      · rw [deltaChecksumIPv4TCP_eq _ _ _ _ _ _ _ _ _ _ h2 (by omega), if_neg h2]
    · simp only [if_true, true_or, (by decide : ¬ (17 = 6))]
      simp only [if_false]
      by_cases h2 : fo > 6
      · rw [deltaChecksumIPv4UDP_skip _ _ _ _ _ _ _ _ _ h2, if_pos h2]
      · rw [deltaChecksumIPv4UDP_eq _ _ _ _ _ _ _ _ _ h2 (by omega), if_neg h2]
    · simp only [if_true, or_true, (by decide : ¬ (136 = 6))]
      simp only [if_false]
      by_cases h2 : fo > 6
      · rw [deltaChecksumIPv4UDP_skip _ _ _ _ _ _ _ _ _ h2, if_pos h2]
      · rw [deltaChecksumIPv4UDP_eq _ _ _ _ _ _ _ _ _ h2 (by omega), if_neg h2]
    · simp only [(by decide : ¬ (33 = 6)), (by decide : ¬ (33 = 17 ∨ 33 = 136))]
      simp only [if_false, if_true]
      by_cases h2 : fo > 6
      · rw [deltaChecksumIPv4TCP_skip _ _ _ _ _ _ _ _ _ _ h2, if_pos h2]
      · rw [deltaChecksumIPv4TCP_eq _ _ _ _ _ _ _ _ _ _ h2 (by omega), if_neg h2]
    · rename_i h6 h17 h136 h33
      have a6 : ¬ proto = 6 := fun h => h6 h
      have a17 : ¬ (proto = 17 ∨ proto = 136) := fun h => h.elim h17 h136
      have a33 : ¬ proto = 33 := fun h => h33 h
      simp only [if_neg a6, if_neg a17, if_neg a33]
  · simp only [if_neg h1]

theorem UpdateIPv4Address_eq (e : ByteOrder) (p : IPPacket) (ns nd : Nat)
    (hcap : 78 ≤ p.buf.length) :
    UpdateIPv4Address e p ns nd = some { buf := rewriteBuf e p ns nd, sz := p.sz } := by
  have hl4 := l4Checksum_eq e p ns nd hcap
  have hlen := length_l4Buf e p ns nd
  unfold UpdateIPv4Address
  simp only [load32_eq e p.buf 12 (by omega), load32_eq e p.buf 16 (by omega), ihl,
    load8_eq p.buf 0 (by omega), Option.map_some', Option.bind_eq_bind, Option.some_bind, hl4]
  rw [load16_eq e _ 10 (by omega)]
  simp only [Option.some_bind]
  rw [store16_eq e _ 10 _ (by omega)]
  simp only [Option.some_bind]
  rw [store32_eq e _ 12 _ (by rw [length_poke]; omega)]
  simp only [Option.some_bind]
  rw [store32_eq e _ 16 _ (by rw [length_poke, length_poke]; omega)]
  rfl

theorem ihl_eq (buf : List Nat) (h : 78 ≤ buf.length) : ihl buf = some (peek buf 0 % 16) := by
  simp only [ihl, load8_eq buf 0 (by omega), Option.map_some']

theorem ihsOf_of_ihl (buf : List Nat) (h : 78 ≤ buf.length) (hl : Nat)
    (hihl : ihl buf = some hl) : ihsOf buf = hl * 4 := by
  rw [ihl_eq buf h] at hihl
  simp only [Option.some.injEq] at hihl
  simp only [ihsOf, hihl]

theorem l4Buf_cases (e : ByteOrder) (p : IPPacket) (ns nd : Nat) :
    l4Buf e p ns nd = p.buf
      ∨ ∃ k v, ihsOf p.buf ≤ k ∧ l4Buf e p ns nd = poke p.buf k (bytes16 e v) := by
  unfold l4Buf
  split
  · split
    · split
      · exact Or.inl rfl
      · exact Or.inr ⟨_, _, by omega, rfl⟩
    · split
      · split
        · exact Or.inl rfl
        · split
          · exact Or.inl rfl
          · exact Or.inr ⟨_, _, by omega, rfl⟩
      · split
        · split
          · exact Or.inl rfl
          · exact Or.inr ⟨_, _, by omega, rfl⟩
        · exact Or.inl rfl
  · exact Or.inl rfl

theorem peek_l4Buf_frame (e : ByteOrder) (p : IPPacket) (ns nd j : Nat)
    (hj : j < ihsOf p.buf) : peek (l4Buf e p ns nd) j = peek p.buf j := by
  rcases l4Buf_cases e p ns nd with h | ⟨k, v, hk, h⟩
  · rw [h]
  · rw [h, peek_poke_frame _ _ _ _ (by omega)]

theorem rd16_l4Buf_frame (e : ByteOrder) (p : IPPacket) (ns nd j : Nat)
    (hj : j + 2 ≤ ihsOf p.buf) : rd16 e (l4Buf e p ns nd) j = rd16 e p.buf j := by
  simp only [rd16, peek_l4Buf_frame e p ns nd j (by omega),
    peek_l4Buf_frame e p ns nd (j + 1) (by omega)]

theorem peek_rewriteBuf_high (e : ByteOrder) (p : IPPacket) (ns nd j : Nat) (hj : 20 ≤ j) :
    peek (rewriteBuf e p ns nd) j = peek (l4Buf e p ns nd) j := by
  unfold rewriteBuf
  rw [peek_poke_frame _ _ _ _ (by rw [bytes32_length]; omega),
    peek_poke_frame _ _ _ _ (by rw [bytes32_length]; omega),
    peek_poke_frame _ _ _ _ (by rw [bytes16_length]; omega)]

theorem peek_rewriteBuf_low (e : ByteOrder) (p : IPPacket) (ns nd j : Nat) (hj : j < 10) :
    peek (rewriteBuf e p ns nd) j = peek (l4Buf e p ns nd) j := by
  unfold rewriteBuf
  rw [peek_poke_frame _ _ _ _ (by omega), peek_poke_frame _ _ _ _ (by omega),
    peek_poke_frame _ _ _ _ (by omega)]

theorem length_rewriteBuf (e : ByteOrder) (p : IPPacket) (ns nd : Nat) :
    (rewriteBuf e p ns nd).length = p.buf.length := by
  unfold rewriteBuf
  rw [length_poke, length_poke, length_poke, length_l4Buf]

theorem rd32_rewriteBuf_src (e : ByteOrder) (p : IPPacket) (ns nd : Nat)
    (hcap : 78 ≤ p.buf.length) (hs : ns < 4294967296) :
    rd32 e (rewriteBuf e p ns nd) 12 = ns := by
  unfold rewriteBuf
  rw [rd32_poke_frame _ _ _ _ _ (by omega)]
  exact rd32_poke_same e _ 12 ns (by rw [length_poke, length_l4Buf]; omega) hs

theorem rd32_rewriteBuf_dst (e : ByteOrder) (p : IPPacket) (ns nd : Nat)
    (hcap : 78 ≤ p.buf.length) (hd : nd < 4294967296) :
    rd32 e (rewriteBuf e p ns nd) 16 = nd := by
  unfold rewriteBuf
  exact rd32_poke_same e _ 16 nd (by rw [length_poke, length_poke, length_l4Buf]; omega) hd

theorem rd16_rewriteBuf_high (e : ByteOrder) (p : IPPacket) (ns nd j : Nat) (hj : 20 ≤ j) :
    rd16 e (rewriteBuf e p ns nd) j = rd16 e (l4Buf e p ns nd) j := by
  simp only [rd16, peek_rewriteBuf_high e p ns nd j hj,
    peek_rewriteBuf_high e p ns nd (j + 1) (by omega)]

theorem peek_of_load8 (buf : List Nat) (i v : Nat) (hi : i < buf.length)
    (h : load8 buf i = some v) : peek buf i = v := by
  rw [load8_eq buf i hi] at h
  exact Option.some.inj h

theorem rd16_of_load16 (e : ByteOrder) (buf : List Nat) (i v : Nat) (hi : i + 2 ≤ buf.length)
    (h : load16 e buf i = some v) : rd16 e buf i = v := by
  rw [load16_eq e buf i hi] at h
  exact Option.some.inj h

theorem rd32_of_load32 (e : ByteOrder) (buf : List Nat) (i v : Nat) (hi : i + 4 ≤ buf.length)
    (h : load32 e buf i = some v) : rd32 e buf i = v := by
  rw [load32_eq e buf i hi] at h
  exact Option.some.inj h

theorem l4Buf_tcp (e : ByteOrder) (p : IPPacket) (ns nd off : Nat)
    (hsz : ihsOf p.buf ≤ p.sz)
    (hoff : peek p.buf 9 = 6 ∧ off = 16 ∨ peek p.buf 9 = 33 ∧ off = 6)
    (hfrag : fragoffOf e p.buf ≤ off) :
    l4Buf e p ns nd = poke p.buf (ihsOf p.buf + off - fragoffOf e p.buf)
      (bytes16 e (tcpField (rd16 e p.buf (ihsOf p.buf + off - fragoffOf e p.buf))
        (rd32 e p.buf 12) (rd32 e p.buf 16) ns nd)) := by
  unfold l4Buf
  rcases hoff with ⟨h6, rfl⟩ | ⟨h33, rfl⟩
  · rw [if_pos hsz, if_pos h6, if_neg (by omega)]
  · rw [if_pos hsz, if_neg (by omega), if_neg (by omega), if_pos h33, if_neg (by omega)]

theorem l4Buf_udp (e : ByteOrder) (p : IPPacket) (ns nd : Nat)
    (hp : peek p.buf 9 = 17 ∨ peek p.buf 9 = 136) :
    l4Buf e p ns nd = p.buf
      ∨ (rd16 e p.buf (ihsOf p.buf + 6) ≠ 0 ∧ fragoffOf e p.buf ≤ 6 ∧ ihsOf p.buf ≤ p.sz
          ∧ l4Buf e p ns nd = poke p.buf (ihsOf p.buf + 6)
            (bytes16 e (deltaIPv4Checksum (rd16 e p.buf (ihsOf p.buf + 6))
              (rd32 e p.buf 12) (rd32 e p.buf 16) ns nd))) := by
  unfold l4Buf
  by_cases hsz : ihsOf p.buf ≤ p.sz
  · rw [if_pos hsz, if_neg (by omega), if_pos hp]
    by_cases hf : fragoffOf e p.buf > 6
    · rw [if_pos hf]; exact Or.inl rfl
    · rw [if_neg hf]
      by_cases hc : rd16 e p.buf (ihsOf p.buf + 6) = 0
      · rw [if_pos hc]; exact Or.inl rfl
      · rw [if_neg hc]; exact Or.inr ⟨hc, by omega, hsz, rfl⟩
  · rw [if_neg hsz]; exact Or.inl rfl

theorem deltaIPv4Checksum_ne_zero (c os od ns nd : Nat) (hc : c < 65536) (hc0 : c ≠ 0)
    (hos : os < 4294967296) (hod : od < 4294967296) (hns : ns < 4294967296)
    (hnd : nd < 4294967296) : deltaIPv4Checksum c os od ns nd ≠ 0 := by
  intro h
  rw [deltaIPv4Checksum_eq_zero c os od ns nd hc hos hod hns hnd] at h
  omega

theorem tcpField_lt (c os od ns nd : Nat) : tcpField c os od ns nd < 65535 := by
  have := deltaIPv4Checksum_lt c os od ns nd
  unfold tcpField
  split <;> omega

theorem l4Buf_udp_store (e : ByteOrder) (p : IPPacket) (ns nd : Nat)
    (hsz : ihsOf p.buf ≤ p.sz) (hp : peek p.buf 9 = 17 ∨ peek p.buf 9 = 136)
    (hfrag : fragoffOf e p.buf ≤ 6) (hc : rd16 e p.buf (ihsOf p.buf + 6) ≠ 0) :
    l4Buf e p ns nd = poke p.buf (ihsOf p.buf + 6)
      (bytes16 e (deltaIPv4Checksum (rd16 e p.buf (ihsOf p.buf + 6))
        (rd32 e p.buf 12) (rd32 e p.buf 16) ns nd)) := by
  unfold l4Buf
  rw [if_pos hsz, if_neg (by omega), if_pos hp, if_neg (by omega), if_neg hc]

theorem l4IndexOf_ge (ihs sz proto fragoff : Nat) (h : 20 ≤ ihs) :
    20 ≤ l4IndexOf ihs sz proto fragoff := by
  unfold l4IndexOf
  repeat (first | omega | split)

theorem l4IndexOf_le (ihs sz proto fragoff : Nat) (h : 20 ≤ ihs) :
    l4IndexOf ihs sz proto fragoff ≤ ihs + 16 := by
  unfold l4IndexOf
  repeat (first | omega | split)

theorem l4ValueOf_lt (kind c os od ns nd : Nat) (hc : c < 65536) :
    l4ValueOf kind c os od ns nd < 65536 := by
  have h1 := tcpField_lt c os od ns nd
  have h2 := deltaIPv4Checksum_lt c os od ns nd
  unfold l4ValueOf
  repeat (first | omega | split)

theorem l4Buf_eq_poke (e : ByteOrder) (p : IPPacket) (ns nd : Nat) (hb : bytesOk p.buf) :
    l4Buf e p ns nd
      = poke p.buf (l4IndexOf (ihsOf p.buf) p.sz (peek p.buf 9) (fragoffOf e p.buf))
          (bytes16 e (l4ValueOf (l4KindOf (ihsOf p.buf) p.sz (peek p.buf 9) (fragoffOf e p.buf))
            (rd16 e p.buf (l4IndexOf (ihsOf p.buf) p.sz (peek p.buf 9) (fragoffOf e p.buf)))
            (rd32 e p.buf 12) (rd32 e p.buf 16) ns nd)) := by
  unfold l4Buf l4IndexOf l4KindOf l4ValueOf
  split
  · split
    · split
      · simp only [(by decide : ¬ (0 = 1)), (by decide : ¬ (0 = 2)), if_false]
        exact (poke_rd16_self e p.buf hb _).symm
      · simp only [if_true]
    · split
      · split
        · simp only [(by decide : ¬ (0 = 1)), (by decide : ¬ (0 = 2)), if_false]
          exact (poke_rd16_self e p.buf hb _).symm
        · simp only [(by decide : ¬ (2 = 1)), if_true, if_false]
          split
          · rename_i h0
            rw [← h0]
            exact (poke_rd16_self e p.buf hb _).symm
          · rfl
      · split
        · split
          · simp only [(by decide : ¬ (0 = 1)), (by decide : ¬ (0 = 2)), if_false]
            exact (poke_rd16_self e p.buf hb _).symm
          · simp only [if_true]
        · simp only [(by decide : ¬ (0 = 1)), (by decide : ¬ (0 = 2)), if_false]
          exact (poke_rd16_self e p.buf hb _).symm
  · simp only [(by decide : ¬ (0 = 1)), (by decide : ¬ (0 = 2)), if_false]
    exact (poke_rd16_self e p.buf hb _).symm

theorem peek_bytes16_rd16 (e : ByteOrder) (buf : List Nat) (hb : bytesOk buf) (i j : Nat)
    (h1 : i ≤ j) (h2 : j < i + 2) (h3 : j < buf.length) :
    peek (bytes16 e (rd16 e buf i)) (j - i) = peek buf j := by
  have h := congrArg (fun l => peek l j) (poke_rd16_self e buf hb i)
  simp only [peek_poke, bytes16_length] at h
  rw [if_pos ⟨h1, h2, h3⟩] at h
  exact h

theorem peek_bytes32_rd32 (e : ByteOrder) (buf : List Nat) (hb : bytesOk buf) (i j : Nat)
    (h1 : i ≤ j) (h2 : j < i + 4) (h3 : j < buf.length) :
    peek (bytes32 e (rd32 e buf i)) (j - i) = peek buf j := by
  have h := congrArg (fun l => peek l j) (poke_rd32_self e buf hb i)
  simp only [peek_poke, bytes32_length] at h
  rw [if_pos ⟨h1, h2, h3⟩] at h
  exact h

theorem restore_fields (e : ByteOrder) (b1 b : List Nat) (k : Nat) (hk : 20 ≤ k)
    (hb : bytesOk b) (hlen : b1.length = b.length)
    (hframe : ∀ j, (j < 10 ∨ 20 ≤ j) → ¬ (k ≤ j ∧ j < k + 2) → peek b1 j = peek b j) :
    poke (poke (poke (poke b1 k (bytes16 e (rd16 e b k))) 10 (bytes16 e (rd16 e b 10))) 12
      (bytes32 e (rd32 e b 12))) 16 (bytes32 e (rd32 e b 16)) = b := by
  apply ext_peek
  · simp only [length_poke, hlen]
  · intro j hj
    simp only [length_poke, hlen] at hj
    simp only [peek_poke, length_poke, hlen, bytes16_length, bytes32_length]
    split
    · rename_i h; exact peek_bytes32_rd32 e b hb 16 j h.1 h.2.1 h.2.2
    · split
      · rename_i h; exact peek_bytes32_rd32 e b hb 12 j h.1 h.2.1 h.2.2
      · split
        · rename_i h; exact peek_bytes16_rd16 e b hb 10 j h.1 h.2.1 h.2.2
        · split
          · rename_i h; exact peek_bytes16_rd16 e b hb k j h.1 h.2.1 h.2.2
          · exact hframe j (by omega) (by omega)

theorem rd16_rewriteBuf_check (e : ByteOrder) (p : IPPacket) (ns nd : Nat)
    (hcap : 78 ≤ p.buf.length) :
    rd16 e (rewriteBuf e p ns nd) 10
      = deltaIPv4Checksum (rd16 e (l4Buf e p ns nd) 10) (rd32 e p.buf 12) (rd32 e p.buf 16)
          ns nd := by
  unfold rewriteBuf
  rw [rd16_poke_frame _ _ _ _ _ (by omega), rd16_poke_frame _ _ _ _ _ (by omega)]
  exact rd16_poke_same e _ 10 _ (by rw [length_l4Buf]; omega) (deltaIPv4Checksum_lt _ _ _ _ _)

theorem bytesOk_l4Buf (e : ByteOrder) (p : IPPacket) (ns nd : Nat) (hb : bytesOk p.buf) :
    bytesOk (l4Buf e p ns nd) := by
  rcases l4Buf_cases e p ns nd with h | ⟨k, v, _, h⟩
  · rw [h]; exact hb
  · rw [h]; exact bytesOk_poke _ (bytesOk_bytes16 e v) _ _ hb

theorem bytesOk_rewriteBuf (e : ByteOrder) (p : IPPacket) (ns nd : Nat) (hb : bytesOk p.buf) :
    bytesOk (rewriteBuf e p ns nd) := by
  unfold rewriteBuf
  exact bytesOk_poke _ (bytesOk_bytes32 e nd) _ _ (bytesOk_poke _ (bytesOk_bytes32 e ns) _ _
    (bytesOk_poke _ (bytesOk_bytes16 e _) _ _ (bytesOk_l4Buf e p ns nd hb)))

theorem deltaIPv4Checksum_roundtrip (c a1 a2 b1 b2 : Nat) (hc : c < 65536)
    (ha1 : a1 < 4294967296) (ha2 : a2 < 4294967296) (hb1 : b1 < 4294967296)
    (hb2 : b2 < 4294967296) :
    deltaIPv4Checksum (deltaIPv4Checksum c a1 a2 b1 b2) b1 b2 a1 a2
      = if c = 0 then 65535 else c := by
  have hlt1 := deltaIPv4Checksum_lt c a1 a2 b1 b2
  have hmod1 := deltaIPv4Checksum_mod c a1 a2 b1 b2 hc ha1 ha2 hb1 hb2
  have hz1 := deltaIPv4Checksum_eq_zero c a1 a2 b1 b2 hc ha1 ha2 hb1 hb2
  generalize deltaIPv4Checksum c a1 a2 b1 b2 = r1 at *
  have hlt2 := deltaIPv4Checksum_lt r1 b1 b2 a1 a2
  have hmod2 := deltaIPv4Checksum_mod r1 b1 b2 a1 a2 hlt1 hb1 hb2 ha1 ha2
  have hz2 := deltaIPv4Checksum_eq_zero r1 b1 b2 a1 a2 hlt1 hb1 hb2 ha1 ha2
  generalize deltaIPv4Checksum r1 b1 b2 a1 a2 = r2 at *
  have h1 := halves_le a1 ha1
  have h2 := halves_le a2 ha2
  have h3 := halves_le b1 hb1
  have h4 := halves_le b2 hb2
  generalize halves a1 = x1 at *
  generalize halves a2 = x2 at *
  generalize halves b1 = y1 at *
  generalize halves b2 = y2 at *
  have hr2 : r2 ≠ 0 := by
    intro h
    have e2 := hz2.mp h
    have hr1 : r1 = 0 := by omega
    have e1 := hz1.mp hr1
    omega
  split <;> omega

theorem tcpField_mod (c os od ns nd : Nat) :
    tcpField c os od ns nd % 65535 = deltaIPv4Checksum c os od ns nd % 65535 := by
  unfold tcpField
  split
  · rename_i h; rw [h]
  · rfl

theorem tcpField_roundtrip (c a1 a2 b1 b2 : Nat) (hc : c < 65535)
    (ha1 : a1 < 4294967296) (ha2 : a2 < 4294967296) (hb1 : b1 < 4294967296)
    (hb2 : b2 < 4294967296) :
    tcpField (tcpField c a1 a2 b1 b2) b1 b2 a1 a2 = c := by
  have hlt1 := tcpField_lt c a1 a2 b1 b2
  have hm1 := tcpField_mod c a1 a2 b1 b2
  rw [deltaIPv4Checksum_mod c a1 a2 b1 b2 (by omega) ha1 ha2 hb1 hb2] at hm1
  generalize tcpField c a1 a2 b1 b2 = t1 at *
  have hlt2 := tcpField_lt t1 b1 b2 a1 a2
  have hm2 := tcpField_mod t1 b1 b2 a1 a2
  rw [deltaIPv4Checksum_mod t1 b1 b2 a1 a2 (by omega) hb1 hb2 ha1 ha2] at hm2
  generalize tcpField t1 b1 b2 a1 a2 = t2 at *
  have h1 := halves_le a1 ha1
  have h2 := halves_le a2 ha2
  have h3 := halves_le b1 hb1
  have h4 := halves_le b2 hb2
  generalize halves a1 = x1 at *
  generalize halves a2 = x2 at *
  generalize halves b1 = y1 at *
  generalize halves b2 = y2 at *
  omega

theorem l4ValueOf_roundtrip (kind c a1 a2 b1 b2 : Nat) (hc : c < 65536)
    (hk : kind = 1 → c ≠ 65535)
    (ha1 : a1 < 4294967296) (ha2 : a2 < 4294967296) (hb1 : b1 < 4294967296)
    (hb2 : b2 < 4294967296) :
    l4ValueOf kind (l4ValueOf kind c a1 a2 b1 b2) b1 b2 a1 a2 = c := by
  unfold l4ValueOf
  by_cases h1 : kind = 1
  · have := hk h1
    simp only [if_pos h1]
    exact tcpField_roundtrip c a1 a2 b1 b2 (by omega) ha1 ha2 hb1 hb2
  · simp only [if_neg h1]
    by_cases h2 : kind = 2
    · simp only [if_pos h2]
      by_cases h0 : c = 0
      · subst h0
        simp only [if_true]
      · have hne := deltaIPv4Checksum_ne_zero c a1 a2 b1 b2 hc h0 ha1 ha2 hb1 hb2
        rw [if_neg h0, if_neg hne, deltaIPv4Checksum_roundtrip c a1 a2 b1 b2 hc ha1 ha2 hb1 hb2,
          if_neg h0]
    · simp only [if_neg h2]

theorem fold2_range (s : Nat) (h : s < 4294967296) (h0 : 0 < s) :
    1 ≤ fold2 s % 65536 ∧ fold2 s % 65536 ≤ 65535 := by
  have hz := fold2_eq_zero s h
  have hlt : fold2 s % 65536 < 65536 := Nat.mod_lt _ (by decide)
  constructor
  · rcases Nat.eq_zero_or_pos (fold2 s % 65536) with h1 | h1
    · have := hz.mp h1; omega
    · exact h1
  · omega

/-- Congruence of the delta with the checksum recomputed from the operand totals: `told`
and `tnew` are the word sums of the summed data before and after the address change. -/
theorem delta_congr (c os od ns nd told tnew : Nat)
    (hto : told < 4294967296) (hto0 : 0 < told) (htn : tnew < 4294967296) (htn0 : 0 < tnew)
    (hrel : tnew + halves os + halves od = told + halves ns + halves nd)
    (hos : os < 4294967296) (hod : od < 4294967296) (hns : ns < 4294967296)
    (hnd : nd < 4294967296) (hc : c < 65536)
    (hcm : c % 65535 = (65535 - fold2 told % 65536) % 65535) :
    deltaIPv4Checksum c os od ns nd % 65535 = (65535 - fold2 tnew % 65536) % 65535 := by
  have hmod := deltaIPv4Checksum_mod c os od ns nd hc hos hod hns hnd
  have hfo := fold2_mod told hto
  have hfn := fold2_mod tnew htn
  have hro := fold2_range told hto hto0
  have hrn := fold2_range tnew htn htn0
  have h1 := halves_le os hos
  have h2 := halves_le od hod
  have h3 := halves_le ns hns
  have h4 := halves_le nd hnd
  generalize deltaIPv4Checksum c os od ns nd = r at *
  generalize fold2 told % 65536 = fo at *
  generalize fold2 tnew % 65536 = fn at *
  generalize halves os = x1 at *
  generalize halves od = x2 at *
  generalize halves ns = y1 at *
  generalize halves nd = y2 at *
  omega

/-! ## Word sums -/

theorem ipchksumLoop_eq (e : ByteOrder) : ∀ (l : List Nat) (s : Nat), s < 4294967296 →
    ipchksumLoop e l s = (s + wordSum e l) % 4294967296
  | [], s, h => by simp only [ipchksumLoop, wordSum, Nat.add_zero, Nat.mod_eq_of_lt h]
  | [b0], s, _ => by simp only [ipchksumLoop, wordSum]
  | b0 :: b1 :: rest, s, _ => by
    simp only [ipchksumLoop, wordSum]
    rw [ipchksumLoop_eq e rest _ (Nat.mod_lt _ (by decide))]
    omega

theorem ipchksum_eq (e : ByteOrder) (l : List Nat) (h : wordSum e l < 4294967296) :
    ipchksum e l 0 = 65535 - fold2 (wordSum e l) % 65536 := by
  have hf : fold2 (wordSum e l) < 4294967296 := Nat.mod_lt _ (by decide)
  simp only [ipchksum, ipchksumLoop_eq e l 0 (by decide), Nat.zero_add, Nat.mod_eq_of_lt h,
    not32, and_ffff]
  omega

theorem wordSum_append (e : ByteOrder) (ys : List Nat) : ∀ (xs : List Nat),
    xs.length % 2 = 0 → wordSum e (xs ++ ys) = wordSum e xs + wordSum e ys
  | [], _ => by simp only [List.nil_append, wordSum, Nat.zero_add]
  | [b0], h => by simp at h
  | b0 :: b1 :: rest, h => by
    have h2 : rest.length % 2 = 0 := by
      simp only [List.length_cons] at h; omega
    show wordSum e (b0 :: b1 :: (rest ++ ys)) = _
    simp only [wordSum, wordSum_append e ys rest h2, Nat.add_assoc]

theorem word16_le (e : ByteOrder) (a b : Nat) (ha : a < 256) (hb : b < 256) :
    word16 e a b ≤ 65535 := by
  cases e <;> simp only [word16] <;> omega

theorem wordSum_le (e : ByteOrder) : ∀ (l : List Nat), bytesOk l →
    wordSum e l ≤ 65535 * ((l.length + 1) / 2)
  | [], _ => by simp [wordSum]
  | [b0], h => by
    have := word16_le e b0 0 (h b0 (List.mem_cons_self _ _)) (by decide)
    simpa [wordSum] using this
  | b0 :: b1 :: rest, h => by
    have h0 := word16_le e b0 b1 (h b0 (List.mem_cons_self _ _))
      (h b1 (List.mem_cons_of_mem _ (List.mem_cons_self _ _)))
    have hr := wordSum_le e rest (fun x hx =>
      h x (List.mem_cons_of_mem _ (List.mem_cons_of_mem _ hx)))
    simp only [wordSum, List.length_cons]
    omega

theorem wordSum_first (e : ByteOrder) : ∀ (l : List Nat), 2 ≤ l.length →
    word16 e (peek l 0) (peek l 1) ≤ wordSum e l
  | [], h => by simp at h
  | [b0], h => by simp at h
  | b0 :: b1 :: rest, _ => by
    simp [wordSum, peek]

theorem poke16_cons2 (b0 b1 x y : Nat) (rest : List Nat) (i : Nat) :
    poke (b0 :: b1 :: rest) (i + 2) [x, y] = b0 :: b1 :: poke rest i [x, y] := by
  simp [poke, List.set]

theorem peek_cons2 (b0 b1 : Nat) (rest : List Nat) (i : Nat) :
    peek (b0 :: b1 :: rest) (i + 2) = peek rest i := by
  simp [peek]

theorem wordSum_poke16 (e : ByteOrder) (x y : Nat) : ∀ (l : List Nat) (i : Nat),
    i % 2 = 0 → i + 2 ≤ l.length →
    wordSum e (poke l i [x, y]) + word16 e (peek l i) (peek l (i + 1))
      = wordSum e l + word16 e x y
  | [], i, _, h => by simp at h
  | [b0], i, _, h => by simp at h
  | b0 :: b1 :: rest, 0, _, _ => by
    simp [poke, List.set, wordSum, peek]
    omega
  | b0 :: b1 :: rest, 1, h, _ => by simp at h
  | b0 :: b1 :: rest, i + 2, h1, h2 => by
    have ih := wordSum_poke16 e x y rest i (by omega)
      (by simp only [List.length_cons] at h2; omega)
    rw [poke16_cons2, peek_cons2, show i + 2 + 1 = (i + 1) + 2 from rfl, peek_cons2]
    simp only [wordSum]
    omega

theorem wordSum_poke_bytes16 (e : ByteOrder) (l : List Nat) (i v : Nat) (hv : v < 65536)
    (hi : i % 2 = 0) (hlen : i + 2 ≤ l.length) :
    wordSum e (poke l i (bytes16 e v)) + rd16 e l i = wordSum e l + v := by
  have h : ∃ x y, bytes16 e v = [x, y] ∧ word16 e x y = v := by
    cases e
    · exact ⟨_, _, rfl, by simp only [word16]; omega⟩
    · exact ⟨_, _, rfl, by simp only [word16]; omega⟩
  obtain ⟨x, y, hxy, hw⟩ := h
  rw [hxy, rd16, wordSum_poke16 e x y l i hi hlen, hw]

theorem wordSum_zero_check (e : ByteOrder) (l : List Nat) (i : Nat)
    (hi : i % 2 = 0) (hlen : i + 2 ≤ l.length) :
    wordSum e (poke l i [0, 0]) + rd16 e l i = wordSum e l := by
  have h := wordSum_poke16 e 0 0 l i hi hlen
  have h0 : word16 e 0 0 = 0 := by cases e <;> rfl
  rw [h0] at h
  exact h

theorem poke32_split (l : List Nat) (i a b c d : Nat) :
    poke l i [a, b, c, d] = poke (poke l i [a, b]) (i + 2) [c, d] := by
  simp [poke]

theorem halves_rd32 (e : ByteOrder) (l : List Nat) (hb : bytesOk l) (i : Nat) :
    halves (rd32 e l i) = rd16 e l i + rd16 e l (i + 2) := by
  have h0 := peek_lt l hb i
  have h1 := peek_lt l hb (i + 1)
  have h2 := peek_lt l hb (i + 2)
  have h3 := peek_lt l hb (i + 3)
  have e3 : i + 2 + 1 = i + 3 := rfl
  cases e <;> simp only [halves, rd32, rd16, word32, word16, e3] <;> omega

theorem bytes32_words (e : ByteOrder) (v : Nat) (hv : v < 4294967296) :
    ∃ a b c d, bytes32 e v = [a, b, c, d] ∧ word16 e a b + word16 e c d = halves v := by
  cases e
  · exact ⟨_, _, _, _, rfl, by simp only [word16, halves]; omega⟩
  · exact ⟨_, _, _, _, rfl, by simp only [word16, halves]; omega⟩

theorem wordSum_poke_bytes32 (e : ByteOrder) (l : List Nat) (hb : bytesOk l) (i v : Nat)
    (hv : v < 4294967296) (hi : i % 2 = 0) (hlen : i + 4 ≤ l.length) :
    wordSum e (poke l i (bytes32 e v)) + halves (rd32 e l i) = wordSum e l + halves v := by
  obtain ⟨a, b, c, d, habcd, hw⟩ := bytes32_words e v hv
  rw [habcd, poke32_split, halves_rd32 e l hb i]
  have s1 := wordSum_poke16 e a b l i hi (by omega)
  have s2 := wordSum_poke16 e c d (poke l i [a, b]) (i + 2) (by omega)
    (by rw [length_poke]; omega)
  have f1 : peek (poke l i [a, b]) (i + 2) = peek l (i + 2) :=
    peek_poke_frame _ _ _ _ (by simp)
  have f2 : peek (poke l i [a, b]) (i + 2 + 1) = peek l (i + 2 + 1) :=
    peek_poke_frame _ _ _ _ (by simp)
  rw [f1, f2] at s2
  simp only [rd16]
  omega

theorem wordSum_bytes32 (e : ByteOrder) (v : Nat) (hv : v < 4294967296) (rest : List Nat) :
    wordSum e (bytes32 e v ++ rest) = halves v + wordSum e rest := by
  obtain ⟨a, b, c, d, habcd, hw⟩ := bytes32_words e v hv
  rw [habcd]
  show wordSum e (a :: b :: c :: d :: rest) = _
  simp only [wordSum]
  omega

/-! ## C1: the header checksum against a recomputation from scratch -/

theorem peek_take (l : List Nat) (n j : Nat) (h : j < n) : peek (l.take n) j = peek l j := by
  simp only [peek, List.getElem?_take_of_lt h]

theorem bytesOk_take (l : List Nat) (n : Nat) (hb : bytesOk l) : bytesOk (l.take n) :=
  fun b hmem => hb b (List.mem_of_mem_take hmem)

theorem rd16_take (e : ByteOrder) (l : List Nat) (n j : Nat) (h : j + 2 ≤ n) :
    rd16 e (l.take n) j = rd16 e l j := by
  simp only [rd16, peek_take l n j (by omega), peek_take l n (j + 1) (by omega)]

theorem rd32_take (e : ByteOrder) (l : List Nat) (n j : Nat) (h : j + 4 ≤ n) :
    rd32 e (l.take n) j = rd32 e l j := by
  simp only [rd32, peek_take l n j (by omega), peek_take l n (j + 1) (by omega),
    peek_take l n (j + 2) (by omega), peek_take l n (j + 3) (by omega)]

theorem word16_pos (e : ByteOrder) (a b : Nat) (h : 0 < a ∨ 0 < b) : 0 < word16 e a b := by
  cases e <;> simp only [word16] <;> omega

theorem bytesOk_zero2 : bytesOk [0, 0] := by decide

/-- Word sums of a header before and after the substitution of the addresses, both with the
checksum field zeroed. -/
theorem wordSum_withAddresses (e : ByteOrder) (hdr : List Nat) (hb : bytesOk hdr)
    (hlen : 20 ≤ hdr.length) (ns nd : Nat) (hns : ns < 4294967296) (hnd : nd < 4294967296) :
    wordSum e (zeroCheck (withAddresses e hdr ns nd))
        + halves (rd32 e hdr 12) + halves (rd32 e hdr 16)
      = wordSum e (zeroCheck hdr) + halves ns + halves nd := by
  unfold zeroCheck withAddresses
  have hb1 := bytesOk_poke _ (bytesOk_bytes32 e ns) hdr 12 hb
  have s0 := wordSum_zero_check e hdr 10 (by decide) (by omega)
  have s1 := wordSum_poke_bytes32 e hdr hb 12 ns hns (by decide) (by omega)
  have s2 := wordSum_poke_bytes32 e (poke hdr 12 (bytes32 e ns)) hb1 16 nd hnd (by decide)
    (by rw [length_poke]; omega)
  have s3 := wordSum_zero_check e (poke (poke hdr 12 (bytes32 e ns)) 16 (bytes32 e nd)) 10
    (by decide) (by rw [length_poke, length_poke]; omega)
  rw [rd32_poke_frame e _ _ _ _ (by rw [bytes32_length]; omega)] at s2
  rw [rd16_poke_frame e _ _ _ _ (by omega), rd16_poke_frame e _ _ _ _ (by omega)] at s3
  omega

theorem wordSum_zeroCheck_pos (e : ByteOrder) (hdr : List Nat) (hlen : 20 ≤ hdr.length)
    (h0 : 0 < peek hdr 0) : 0 < wordSum e (zeroCheck hdr) := by
  have h1 := wordSum_first e (zeroCheck hdr) (by unfold zeroCheck; rw [length_poke]; omega)
  have h2 : peek (zeroCheck hdr) 0 = peek hdr 0 := peek_poke_frame _ _ _ _ (by omega)
  have h3 := word16_pos e (peek (zeroCheck hdr) 0) (peek (zeroCheck hdr) 1)
    (Or.inl (by rw [h2]; exact h0))
  omega

theorem wordSum_zeroCheck_lt (e : ByteOrder) (hdr : List Nat) (hb : bytesOk hdr)
    (hlen : hdr.length ≤ 60) : wordSum e (zeroCheck hdr) < 4294967296 := by
  have h1 := wordSum_le e (zeroCheck hdr) (bytesOk_poke _ bytesOk_zero2 hdr 10 hb)
  unfold zeroCheck at h1 ⊢
  rw [length_poke] at h1
  omega

/-- C1, counterexample: an ICMP packet from 10.0.0.2 with the correct header checksum
`0xFFFE`; after the rewrite to source 10.0.0.1 the stored checksum field is `0xFFFF`, while
the checksum recomputed from scratch over the new header is `0x0000`. -/
theorem UpdateIPv4Address_header_checksum_counterexample :
    ihl nearZeroCheckPacket.buf = some 5 ∧ 5 * 4 ≤ nearZeroCheckPacket.sz
      ∧ load16 .little nearZeroCheckPacket.buf 10
          = some (headerChecksum .little (nearZeroCheckPacket.buf.take (5 * 4)))
      ∧ headerChecksum .little
          (withAddresses .little (nearZeroCheckPacket.buf.take (5 * 4)) 0x0100000A 0x0000E170)
          = 0x0000
      ∧ ∃ q, UpdateIPv4Address .little nearZeroCheckPacket 0x0100000A 0x0000E170 = some q
          ∧ load16 .little q.buf 10 = some 0xFFFF := by
  decide

/-- C1, amended: for every packet with `ihl` at least 5 whose header checksum field is the
checksum of the header computed from scratch, and for all new addresses, the checksum
field stored by `UpdateIPv4Address` equals the checksum computed from scratch over the
header with the new addresses, except that when the latter is `0x0000` the stored field
may be `0xFFFF`, the other encoding of zero. -/
theorem UpdateIPv4Address_header_checksum (e : ByteOrder) (p : IPPacket)
    (nSrcIP nDstIP hl check : Nat) (hcap : 78 ≤ p.buf.length) (hwf : p.wf)
    (hs : nSrcIP < 4294967296) (hd : nDstIP < 4294967296)
    (hihl : ihl p.buf = some hl) (h5 : 5 ≤ hl)
    (hchk : load16 e p.buf 10 = some check)
    (hvalid : check = headerChecksum e (p.buf.take (hl * 4))) :
    ∃ q r, UpdateIPv4Address e p nSrcIP nDstIP = some q ∧ load16 e q.buf 10 = some r
      ∧ (r = headerChecksum e (withAddresses e (p.buf.take (hl * 4)) nSrcIP nDstIP)
        ∨ (headerChecksum e (withAddresses e (p.buf.take (hl * 4)) nSrcIP nDstIP) = 0x0000
            ∧ r = 0xFFFF)) := by
  have hb := hwf.2
  have hihs := ihsOf_of_ihl p.buf hcap hl hihl
  have hle := ihsOf_le p.buf
  have hlenq := length_rewriteBuf e p nSrcIP nDstIP
  have hc := rd16_of_load16 e p.buf 10 check (by omega) hchk
  have hihl2 := ihl_eq p.buf hcap
  rw [hihl] at hihl2
  have hb0 : 0 < peek p.buf 0 := by
    have := Option.some.inj hihl2
    omega
  -- the header
  have hhlen : (p.buf.take (hl * 4)).length = hl * 4 := by
    rw [List.length_take]; omega
  have hhb := bytesOk_take p.buf (hl * 4) hb
  have hwalen : (withAddresses e (p.buf.take (hl * 4)) nSrcIP nDstIP).length = hl * 4 := by
    unfold withAddresses; rw [length_poke, length_poke, hhlen]
  have hwab : bytesOk (withAddresses e (p.buf.take (hl * 4)) nSrcIP nDstIP) :=
    bytesOk_poke _ (bytesOk_bytes32 e _) _ _ (bytesOk_poke _ (bytesOk_bytes32 e _) _ _ hhb)
  have hwa0 : peek (withAddresses e (p.buf.take (hl * 4)) nSrcIP nDstIP) 0 = peek p.buf 0 := by
    unfold withAddresses
    rw [peek_poke_frame _ _ _ _ (by omega), peek_poke_frame _ _ _ _ (by omega),
      peek_take _ _ _ (by omega)]
  have hrel := wordSum_withAddresses e (p.buf.take (hl * 4)) hhb (by omega) nSrcIP nDstIP hs hd
  rw [rd32_take e p.buf _ 12 (by omega), rd32_take e p.buf _ 16 (by omega)] at hrel
  have hto := wordSum_zeroCheck_lt e (p.buf.take (hl * 4)) hhb (by omega)
  have hto0 := wordSum_zeroCheck_pos e (p.buf.take (hl * 4)) (by omega)
    (by rw [peek_take _ _ _ (by omega)]; exact hb0)
  have htn := wordSum_zeroCheck_lt e _ hwab (by omega)
  have htn0 := wordSum_zeroCheck_pos e (withAddresses e (p.buf.take (hl * 4)) nSrcIP nDstIP)
    (by omega) (by rw [hwa0]; exact hb0)
  have hold : check = 65535 - fold2 (wordSum e (zeroCheck (p.buf.take (hl * 4)))) % 65536 := by
    rw [hvalid, headerChecksum, ipchksum_eq e _ hto]
  have hnew : headerChecksum e (withAddresses e (p.buf.take (hl * 4)) nSrcIP nDstIP)
      = 65535 - fold2 (wordSum e
          (zeroCheck (withAddresses e (p.buf.take (hl * 4)) nSrcIP nDstIP))) % 65536 := by
    rw [headerChecksum, ipchksum_eq e _ htn]
  have hclt : check < 65536 := by omega
  have hcong := delta_congr check (rd32 e p.buf 12) (rd32 e p.buf 16) nSrcIP nDstIP _ _
    hto hto0 htn htn0 hrel (rd32_lt e p.buf hb 12) (rd32_lt e p.buf hb 16) hs hd hclt
    (by rw [hold])
  have hrn := fold2_range _ htn htn0
  have hrlt := deltaIPv4Checksum_lt check (rd32 e p.buf 12) (rd32 e p.buf 16) nSrcIP nDstIP
  refine ⟨_, _, UpdateIPv4Address_eq e p nSrcIP nDstIP hcap,
    load16_eq e _ 10 (by simp only [hlenq]; omega), ?_⟩
  show rd16 e (rewriteBuf e p nSrcIP nDstIP) 10 = _
    ∨ _ ∧ rd16 e (rewriteBuf e p nSrcIP nDstIP) 10 = _
  rw [rd16_rewriteBuf_check e p nSrcIP nDstIP hcap,
    rd16_l4Buf_frame e p nSrcIP nDstIP 10 (by omega), hc, hnew]
  generalize deltaIPv4Checksum check (rd32 e p.buf 12) (rd32 e p.buf 16) nSrcIP nDstIP = r at *
  generalize fold2 (wordSum e
    (zeroCheck (withAddresses e (p.buf.take (hl * 4)) nSrcIP nDstIP))) % 65536 = fn at *
  omega

/-- Witness for the amended C1 on the sample TCP packet, whose header checksum is correct. -/
theorem UpdateIPv4Address_header_checksum_witness :
    ∃ q r, UpdateIPv4Address .little samplePacket 0x0200000A 0x08080808 = some q
      ∧ load16 .little q.buf 10 = some r
      ∧ (r = headerChecksum .little
            (withAddresses .little (samplePacket.buf.take (5 * 4)) 0x0200000A 0x08080808)
        ∨ (headerChecksum .little
            (withAddresses .little (samplePacket.buf.take (5 * 4)) 0x0200000A 0x08080808)
              = 0x0000
            ∧ r = 0xFFFF)) :=
  UpdateIPv4Address_header_checksum .little samplePacket 0x0200000A 0x08080808 5 0xC020
    (by decide) (by decide) (by decide) (by decide) (by decide) (by decide) (by decide)
    (by decide)

/-! ## C2: the transport checksum against a recomputation from scratch -/

theorem bytesOk_drop (l : List Nat) (n : Nat) (hb : bytesOk l) : bytesOk (l.drop n) :=
  fun b hmem => hb b (List.mem_of_mem_drop hmem)

theorem word16_zero_left (e : ByteOrder) (b : Nat) (hb : 0 < b) : 0 < word16 e 0 b :=
  word16_pos e 0 b (Or.inr hb)

/-- Word sum of the data the transport checksum covers, split into the address halves and
the rest. -/
theorem wordSum_pseudo (e : ByteOrder) (src dst proto len : Nat) (seg : List Nat)
    (hsrc : src < 4294967296) (hdst : dst < 4294967296) :
    wordSum e (pseudoHeader e src dst proto len ++ seg)
      = halves src + halves dst
        + (word16 e 0 proto + word16 e (len / 256 % 256) (len % 256) + wordSum e seg) := by
  unfold pseudoHeader
  rw [List.append_assoc, List.append_assoc, wordSum_bytes32 e src hsrc,
    wordSum_bytes32 e dst hdst]
  show halves src + (halves dst
    + wordSum e (0 :: proto :: (len / 256 % 256) :: (len % 256) :: seg)) = _
  simp only [wordSum]
  omega

theorem transportChecksum_eq (e : ByteOrder) (src dst proto len : Nat) (seg : List Nat)
    (hsrc : src < 4294967296) (hdst : dst < 4294967296)
    (hlt : halves src + halves dst + (word16 e 0 proto
      + word16 e (len / 256 % 256) (len % 256)
      + wordSum e (poke seg (checksumOffset proto) [0, 0])) < 4294967296) :
    transportChecksum e src dst proto len seg
      = if (proto = 17 ∨ proto = 136) ∧ 65535 - fold2 (halves src + halves dst
          + (word16 e 0 proto + word16 e (len / 256 % 256) (len % 256)
          + wordSum e (poke seg (checksumOffset proto) [0, 0]))) % 65536 = 0 then 0xFFFF
        else 65535 - fold2 (halves src + halves dst
          + (word16 e 0 proto + word16 e (len / 256 % 256) (len % 256)
          + wordSum e (poke seg (checksumOffset proto) [0, 0]))) % 65536 := by
  have hw := wordSum_pseudo e src dst proto len (poke seg (checksumOffset proto) [0, 0])
    hsrc hdst
  unfold transportChecksum
  rw [ipchksum_eq e _ (by rw [hw]; exact hlt), hw]

/-- C2: for every unfragmented packet with `ihl` at least 5 that carries TCP, DCCP, UDP or
UDP-Lite, whose `n` covered transport bytes lie inside the packet and include the checksum
field, and whose checksum field is the transport checksum computed from scratch for the
old addresses (for UDP and UDP-Lite with a computed zero sent as `0xFFFF`, hence a non-zero
field), the field stored by `UpdateIPv4Address` is the transport checksum computed from
scratch over the pseudo-header with the new addresses and the same transport bytes. -/
theorem UpdateIPv4Address_transport_checksum (e : ByteOrder) (p : IPPacket)
    (nSrcIP nDstIP hl frag_off proto len n oSrcIP oDstIP check : Nat)
    (hcap : 78 ≤ p.buf.length) (hwf : p.wf)
    (hs : nSrcIP < 4294967296) (hd : nDstIP < 4294967296)
    (hihl : ihl p.buf = some hl) (h5 : 5 ≤ hl)
    (hfo : load16 e p.buf 6 = some frag_off) (hfrag : (ntohs e frag_off &&& 0x1FFF) * 8 = 0)
    (hproto : load8 p.buf 9 = some proto)
    (hp : proto = 6 ∨ proto = 17 ∨ proto = 33 ∨ proto = 136)
    (hn : checksumOffset proto + 2 ≤ n) (hin : hl * 4 + n ≤ p.sz) (hn16 : n ≤ 65535)
    (hsrc : load32 e p.buf 12 = some oSrcIP) (hdst : load32 e p.buf 16 = some oDstIP)
    (hchk : load16 e p.buf (hl * 4 + checksumOffset proto) = some check)
    (hvalid : check
      = transportChecksum e oSrcIP oDstIP proto len ((p.buf.drop (hl * 4)).take n)) :
    ∃ q, UpdateIPv4Address e p nSrcIP nDstIP = some q
      ∧ load16 e q.buf (hl * 4 + checksumOffset proto)
          = some (transportChecksum e nSrcIP nDstIP proto len
              ((p.buf.drop (hl * 4)).take n)) := by
  have hb := hwf.2
  have hszle := hwf.1
  have hihs := ihsOf_of_ihl p.buf hcap hl hihl
  have hle := ihsOf_le p.buf
  have hlenq := length_rewriteBuf e p nSrcIP nDstIP
  have hos := rd32_of_load32 e p.buf 12 oSrcIP (by omega) hsrc
  have hod := rd32_of_load32 e p.buf 16 oDstIP (by omega) hdst
  have hpk := peek_of_load8 p.buf 9 proto (by omega) hproto
  have hoff : checksumOffset proto ≤ 16 := by unfold checksumOffset; split <;> omega
  have hc := rd16_of_load16 e p.buf _ check (by omega) hchk
  have hfr : fragoffOf e p.buf = 0 := by
    simp only [fragoffOf, rd16_of_load16 e p.buf 6 frag_off (by omega) hfo, hfrag]
  have hoslt : oSrcIP < 4294967296 := by rw [← hos]; exact rd32_lt e p.buf hb 12
  have hodlt : oDstIP < 4294967296 := by rw [← hod]; exact rd32_lt e p.buf hb 16
  have hprlt : proto < 256 := by rw [← hpk]; exact peek_lt p.buf hb 9
  have hpr0 : 0 < proto := by omega
  -- the covered bytes with the field zeroed
  have hseglen : ((p.buf.drop (hl * 4)).take n).length = n := by
    rw [List.length_take, List.length_drop]; omega
  have hsegb : bytesOk (poke ((p.buf.drop (hl * 4)).take n) (checksumOffset proto) [0, 0]) :=
    bytesOk_poke _ bytesOk_zero2 _ _ (bytesOk_take _ _ (bytesOk_drop _ _ hb))
  have hsum := wordSum_le e _ hsegb
  rw [length_poke, hseglen] at hsum
  have hw1 := word16_zero_left e proto hpr0
  have hw2 := word16_le e 0 proto (by decide) hprlt
  have hw3 := word16_le e (len / 256 % 256) (len % 256) (Nat.mod_lt _ (by decide))
    (Nat.mod_lt _ (by decide))
  have h1 := halves_le oSrcIP hoslt
  have h2 := halves_le oDstIP hodlt
  have h3 := halves_le nSrcIP hs
  have h4 := halves_le nDstIP hd
  have hold := transportChecksum_eq e oSrcIP oDstIP proto len
    ((p.buf.drop (hl * 4)).take n) hoslt hodlt (by omega)
  have hnew := transportChecksum_eq e nSrcIP nDstIP proto len
    ((p.buf.drop (hl * 4)).take n) hs hd (by omega)
  rw [← hvalid] at hold
  have hx0 : 0 < word16 e 0 proto + word16 e (len / 256 % 256) (len % 256)
    + wordSum e (poke ((p.buf.drop (hl * 4)).take n) (checksumOffset proto) [0, 0]) := by
    omega
  have hxlt : word16 e 0 proto + word16 e (len / 256 % 256) (len % 256)
    + wordSum e (poke ((p.buf.drop (hl * 4)).take n) (checksumOffset proto) [0, 0])
      ≤ 2147614950 := by
    omega
  generalize word16 e 0 proto + word16 e (len / 256 % 256) (len % 256)
    + wordSum e (poke ((p.buf.drop (hl * 4)).take n) (checksumOffset proto) [0, 0]) = x at *
  have hro := fold2_range (halves oSrcIP + halves oDstIP + x) (by omega) (by omega)
  have hrn := fold2_range (halves nSrcIP + halves nDstIP + x) (by omega) (by omega)
  have hclt : check < 65536 := by rw [hold]; split <;> omega
  have hcong := delta_congr check oSrcIP oDstIP nSrcIP nDstIP
    (halves oSrcIP + halves oDstIP + x) (halves nSrcIP + halves nDstIP + x)
    (by omega) (by omega) (by omega) (by omega) (by omega) hoslt hodlt hs hd hclt
    (by rw [hold]; split <;> omega)
  have hdlt := deltaIPv4Checksum_lt check oSrcIP oDstIP nSrcIP nDstIP
  refine ⟨_, UpdateIPv4Address_eq e p nSrcIP nDstIP hcap, ?_⟩
  rw [load16_eq e _ _ (by simp only [hlenq]; omega)]
  show some (rd16 e (rewriteBuf e p nSrcIP nDstIP) (hl * 4 + checksumOffset proto)) = _
  rw [rd16_rewriteBuf_high e p nSrcIP nDstIP _ (by omega), hnew]
  by_cases hudp : proto = 17 ∨ proto = 136
  · -- UDP and UDP-Lite
    have hoff6 : checksumOffset proto = 6 := by
      unfold checksumOffset; rw [if_neg (by omega)]
    have hc0 : check ≠ 0 := by rw [hold]; split <;> omega
    rw [hoff6] at hc ⊢
    rw [l4Buf_udp_store e p nSrcIP nDstIP (by omega) (by rw [hpk]; exact hudp) (by omega)
      (by rw [hihs, hc]; exact hc0), hihs, rd16_poke_same e p.buf _ _ (by omega) (deltaIPv4Checksum_lt _ _ _ _ _),
      hc, hos, hod]
    have hne := deltaIPv4Checksum_ne_zero check oSrcIP oDstIP nSrcIP nDstIP hclt hc0
      hoslt hodlt hs hd
    generalize deltaIPv4Checksum check oSrcIP oDstIP nSrcIP nDstIP = r at *
    generalize fold2 (halves nSrcIP + halves nDstIP + x) % 65536 = fn at *
    congr 1
    split <;> omega
  · -- TCP and DCCP
    have hoffc : proto = 6 ∧ checksumOffset proto = 16 ∨ proto = 33 ∧ checksumOffset proto = 6 := by
      unfold checksumOffset
      rcases hp with h | h | h | h
      · exact Or.inl ⟨h, by rw [if_pos h]⟩
      · exact absurd (Or.inl h) hudp
      · exact Or.inr ⟨h, by rw [if_neg (by omega)]⟩
      · exact absurd (Or.inr h) hudp
    rw [l4Buf_tcp e p nSrcIP nDstIP (checksumOffset proto) (by omega)
      (by rw [hpk]; exact hoffc) (by omega), hfr, hihs, Nat.sub_zero,
      rd16_poke_same e p.buf _ _ (by omega) (Nat.lt_succ_of_lt (tcpField_lt _ _ _ _ _)),
      hc, hos, hod]
    have htl := tcpField_lt check oSrcIP oDstIP nSrcIP nDstIP
    have htm := tcpField_mod check oSrcIP oDstIP nSrcIP nDstIP
    generalize tcpField check oSrcIP oDstIP nSrcIP nDstIP = t at *
    generalize deltaIPv4Checksum check oSrcIP oDstIP nSrcIP nDstIP = r at *
    generalize fold2 (halves nSrcIP + halves nDstIP + x) % 65536 = fn at *
    congr 1
    rw [if_neg (fun h => hudp h.1)]
    omega

/-- Witness for C2 on the sample TCP packet, whose TCP checksum is correct. -/
theorem UpdateIPv4Address_transport_checksum_witness :
    ∃ q, UpdateIPv4Address .little samplePacket 0x0200000A 0x08080808 = some q
      ∧ load16 .little q.buf (5 * 4 + checksumOffset 6)
          = some (transportChecksum .little 0x0200000A 0x08080808 6 20
              ((samplePacket.buf.drop (5 * 4)).take 20)) :=
  UpdateIPv4Address_transport_checksum .little samplePacket 0x0200000A 0x08080808 5 0x0040 6
    20 20 0x0100000A 0x08080808 0x4845 (by decide) (by decide) (by decide) (by decide)
    (by decide) (by decide) (by decide) (by decide) (by decide) (by decide) (by decide)
    (by decide) (by decide) (by decide) (by decide) (by decide) (by decide)

/-! ## C3: rewriting to the current addresses -/

theorem deltaIPv4Checksum_noop (c a b : Nat) (hc : c < 65536) (ha : a < 4294967296)
    (hb : b < 4294967296) :
    deltaIPv4Checksum c a b a b = if c = 0 then 65535 else c := by
  have hlt := deltaIPv4Checksum_lt c a b a b
  have hmod := deltaIPv4Checksum_mod c a b a b hc ha hb ha hb
  have hz := deltaIPv4Checksum_eq_zero c a b a b hc ha hb ha hb
  have h1 := halves_le a ha
  have h2 := halves_le b hb
  generalize deltaIPv4Checksum c a b a b = r at *
  generalize halves a = x at *
  generalize halves b = y at *
  have hr0 : r ≠ 0 := by
    intro h
    have := hz.mp h
    omega
  split <;> omega

theorem tcpField_noop (c a b : Nat) (hc : c < 65535) (ha : a < 4294967296)
    (hb : b < 4294967296) : tcpField c a b a b = c := by
  unfold tcpField
  rw [deltaIPv4Checksum_noop c a b (by omega) ha hb]
  by_cases h0 : c = 0
  · simp [h0]
  · rw [if_neg h0, if_neg (by omega)]

theorem tcpCheckIndex_eq (e : ByteOrder) (p : IPPacket) (hcap : 78 ≤ p.buf.length) :
    tcpCheckIndex e p =
      if ihsOf p.buf ≤ p.sz then
        if peek p.buf 9 = 6 then
          (if fragoffOf e p.buf > 16 then none
            else some (ihsOf p.buf + 16 - fragoffOf e p.buf))
        else if peek p.buf 9 = 33 then
          (if fragoffOf e p.buf > 6 then none
            else some (ihsOf p.buf + 6 - fragoffOf e p.buf))
        else none
      else none := by
  simp only [tcpCheckIndex, ihl_eq p.buf hcap, load16_eq e p.buf 6 (by omega),
    load8_eq p.buf 9 (by omega), Option.bind_eq_bind, Option.some_bind]
  rfl

theorem l4Buf_noop (e : ByteOrder) (p : IPPacket) (hcap : 78 ≤ p.buf.length) (hwf : p.wf)
    (ht : ∀ k, tcpCheckIndex e p = some k → load16 e p.buf k ≠ some 0xFFFF) :
    l4Buf e p (rd32 e p.buf 12) (rd32 e p.buf 16) = p.buf := by
  have hle := ihsOf_le p.buf
  have ha := rd32_lt e p.buf hwf.2 12
  have hb := rd32_lt e p.buf hwf.2 16
  rw [tcpCheckIndex_eq e p hcap] at ht
  have hfield : ∀ k, k + 2 ≤ p.buf.length → load16 e p.buf k ≠ some 0xFFFF →
      poke p.buf k (bytes16 e (tcpField (rd16 e p.buf k) (rd32 e p.buf 12)
        (rd32 e p.buf 16) (rd32 e p.buf 12) (rd32 e p.buf 16))) = p.buf := by
    intro k hk hne
    rw [load16_eq e p.buf k hk] at hne
    have hlt := rd16_lt e p.buf hwf.2 k
    have hne2 : rd16 e p.buf k ≠ 65535 := fun h => hne (by rw [h])
    rw [tcpField_noop _ _ _ (by omega) ha hb]
    exact poke_rd16_self e p.buf hwf.2 k
  unfold l4Buf
  split
  · rename_i hsz
    rw [if_pos hsz] at ht
    split
    · rename_i h6
      rw [if_pos h6] at ht
      split
      · rfl
      · rename_i hf
        rw [if_neg hf] at ht
        exact hfield _ (by omega) (ht _ rfl)
    · rename_i h6
      rw [if_neg h6] at ht
      split
      · split
        · rfl
        · split
          · rfl
          · rename_i hc
            rw [deltaIPv4Checksum_noop _ _ _ (rd16_lt e p.buf hwf.2 _) ha hb, if_neg hc]
            exact poke_rd16_self e p.buf hwf.2 _
      · split
        · rename_i h33
          rw [if_pos h33] at ht
          split
          · rfl
          · rename_i hf
            rw [if_neg hf] at ht
            exact hfield _ (by omega) (ht _ rfl)
        · rfl
  · rfl

/-- C3, counterexample: an ICMP packet whose header checksum field is the valid value
`0x0000`; rewriting it to its own addresses does not give the packet back (the checksum
field becomes `0xFFFF`). -/
theorem UpdateIPv4Address_noop_counterexample :
    20 ≤ zeroCheckPacket.sz ∧ ihl zeroCheckPacket.buf = some 5 ∧ 5 * 4 ≤ zeroCheckPacket.sz
      ∧ load32 .little zeroCheckPacket.buf 12 = some 0x0100000A
      ∧ load32 .little zeroCheckPacket.buf 16 = some 0x0000E170
      ∧ UpdateIPv4Address .little zeroCheckPacket 0x0100000A 0x0000E170
          ≠ some zeroCheckPacket
      ∧ ∃ q, UpdateIPv4Address .little zeroCheckPacket 0x0100000A 0x0000E170 = some q
          ∧ load16 .little q.buf 10 = some 0xFFFF := by
  decide

/-- C3, amended: for every packet (any size, header length, protocol and fragment offset)
whose header checksum field is not `0x0000` and whose TCP or DCCP checksum field, when the
rewrite touches one, is not `0xFFFF`, the call of `UpdateIPv4Address` with the current
`saddr` and `daddr` returns the packet unchanged, every byte included. -/
theorem UpdateIPv4Address_noop (e : ByteOrder) (p : IPPacket) (oSrcIP oDstIP check : Nat)
    (hcap : 78 ≤ p.buf.length) (hwf : p.wf)
    (hsrc : load32 e p.buf 12 = some oSrcIP) (hdst : load32 e p.buf 16 = some oDstIP)
    (hchk : load16 e p.buf 10 = some check) (hchk0 : check ≠ 0x0000)
    (ht : ∀ k, tcpCheckIndex e p = some k → load16 e p.buf k ≠ some 0xFFFF) :
    UpdateIPv4Address e p oSrcIP oDstIP = some p := by
  have hs := rd32_of_load32 e p.buf 12 oSrcIP (by omega) hsrc
  have hd := rd32_of_load32 e p.buf 16 oDstIP (by omega) hdst
  have hc := rd16_of_load16 e p.buf 10 check (by omega) hchk
  subst hs hd hc
  rw [UpdateIPv4Address_eq e p _ _ hcap]
  have hbuf : rewriteBuf e p (rd32 e p.buf 12) (rd32 e p.buf 16) = p.buf := by
    unfold rewriteBuf
    rw [l4Buf_noop e p hcap hwf ht,
      deltaIPv4Checksum_noop _ _ _ (rd16_lt e p.buf hwf.2 _) (rd32_lt e p.buf hwf.2 _)
        (rd32_lt e p.buf hwf.2 _), if_neg hchk0, poke_rd16_self e p.buf hwf.2,
      poke_rd32_self e p.buf hwf.2, poke_rd32_self e p.buf hwf.2]
  rw [hbuf]

/-- Witness for the amended C3 on the sample TCP packet. -/
theorem UpdateIPv4Address_noop_witness :
    UpdateIPv4Address .little samplePacket 0x0100000A 0x08080808 = some samplePacket :=
  UpdateIPv4Address_noop .little samplePacket 0x0100000A 0x08080808 0xC020
    (by decide) (by decide) (by decide) (by decide) (by decide) (by decide) (by decide)

/-! ## C4: rewriting there and back -/

theorem tcpCheckIndex_of_kind (e : ByteOrder) (p : IPPacket) (hcap : 78 ≤ p.buf.length)
    (hkind : l4KindOf (ihsOf p.buf) p.sz (peek p.buf 9) (fragoffOf e p.buf) = 1) :
    tcpCheckIndex e p
      = some (l4IndexOf (ihsOf p.buf) p.sz (peek p.buf 9) (fragoffOf e p.buf)) := by
  rw [tcpCheckIndex_eq e p hcap]
  unfold l4KindOf at hkind
  unfold l4IndexOf
  split
  · rename_i hsz
    rw [if_pos hsz] at hkind
    split
    · rename_i h6
      rw [if_pos h6] at hkind
      split
      · rename_i hf; rw [if_pos hf] at hkind; exact absurd hkind (by decide)
      · rfl
    · rename_i h6
      rw [if_neg h6] at hkind
      by_cases hu : peek p.buf 9 = 17 ∨ peek p.buf 9 = 136
      · rw [if_pos hu] at hkind
        split at hkind <;> exact absurd hkind (by decide)
      · rw [if_neg hu] at hkind
        have h33n : ¬ (peek p.buf 9 = 17 ∨ peek p.buf 9 = 136) := hu
        rw [if_neg h33n]
        split
        · rename_i h33
          rw [if_pos h33] at hkind
          split
          · rename_i hf; rw [if_pos hf] at hkind; exact absurd hkind (by decide)
          · rfl
        · rename_i h33
          rw [if_neg h33] at hkind
          exact absurd hkind (by decide)
  · rename_i hsz
    rw [if_neg hsz] at hkind
    exact absurd hkind (by decide)

theorem rewriteBuf_roundtrip (e : ByteOrder) (p : IPPacket) (srcB dstB : Nat)
    (hcap : 78 ≤ p.buf.length) (hwf : p.wf) (h5 : 20 ≤ ihsOf p.buf)
    (hB1 : srcB < 4294967296) (hB2 : dstB < 4294967296)
    (hchk0 : rd16 e p.buf 10 ≠ 0)
    (ht : ∀ k, tcpCheckIndex e p = some k → load16 e p.buf k ≠ some 0xFFFF) :
    rewriteBuf e { buf := rewriteBuf e p srcB dstB, sz := p.sz }
      (rd32 e p.buf 12) (rd32 e p.buf 16) = p.buf := by
  have hb := hwf.2
  have hle := ihsOf_le p.buf
  have hA1 := rd32_lt e p.buf hb 12
  have hA2 := rd32_lt e p.buf hb 16
  have hlenq := length_rewriteBuf e p srcB dstB
  have hbq := bytesOk_rewriteBuf e p srcB dstB hb
  -- the first ten header bytes are stable
  have hlow : ∀ j, j < 10 → peek (rewriteBuf e p srcB dstB) j = peek p.buf j := by
    intro j hj
    rw [peek_rewriteBuf_low e p srcB dstB j hj, peek_l4Buf_frame e p srcB dstB j (by omega)]
  have hihs : ihsOf (rewriteBuf e p srcB dstB) = ihsOf p.buf := by
    simp only [ihsOf, hlow 0 (by omega)]
  have hfrag : fragoffOf e (rewriteBuf e p srcB dstB) = fragoffOf e p.buf := by
    simp only [fragoffOf, rd16, hlow 6 (by omega), hlow 7 (by omega)]
  have hproto : peek (rewriteBuf e p srcB dstB) 9 = peek p.buf 9 := hlow 9 (by omega)
  -- the transport field
  have hk20 := l4IndexOf_ge (ihsOf p.buf) p.sz (peek p.buf 9) (fragoffOf e p.buf) h5
  have hk76 := l4IndexOf_le (ihsOf p.buf) p.sz (peek p.buf 9) (fragoffOf e p.buf) h5
  have hl41 := l4Buf_eq_poke e p srcB dstB hb
  have hl42 := l4Buf_eq_poke e { buf := rewriteBuf e p srcB dstB, sz := p.sz }
    (rd32 e p.buf 12) (rd32 e p.buf 16) hbq
  simp only [hihs, hfrag, hproto, rd32_rewriteBuf_src e p srcB dstB hcap hB1,
    rd32_rewriteBuf_dst e p srcB dstB hcap hB2] at hl42
  have hkindne : l4KindOf (ihsOf p.buf) p.sz (peek p.buf 9) (fragoffOf e p.buf) = 1 →
      rd16 e p.buf (l4IndexOf (ihsOf p.buf) p.sz (peek p.buf 9) (fragoffOf e p.buf))
        ≠ 65535 := by
    intro hkind h
    have := ht _ (tcpCheckIndex_of_kind e p hcap hkind)
    rw [load16_eq e p.buf _ (by omega), h] at this
    exact this rfl
  generalize l4IndexOf (ihsOf p.buf) p.sz (peek p.buf 9) (fragoffOf e p.buf) = k at *
  generalize l4KindOf (ihsOf p.buf) p.sz (peek p.buf 9) (fragoffOf e p.buf) = kind at *
  have hct := rd16_lt e p.buf hb k
  have hv1lt := l4ValueOf_lt kind (rd16 e p.buf k) (rd32 e p.buf 12) (rd32 e p.buf 16)
    srcB dstB hct
  have hfield : rd16 e (rewriteBuf e p srcB dstB) k
      = l4ValueOf kind (rd16 e p.buf k) (rd32 e p.buf 12) (rd32 e p.buf 16) srcB dstB := by
    rw [rd16_rewriteBuf_high e p srcB dstB k hk20, hl41]
    exact rd16_poke_same e p.buf k _ (by omega) hv1lt
  rw [hfield, l4ValueOf_roundtrip kind _ _ _ _ _ hct hkindne hA1 hA2 hB1 hB2] at hl42
  -- the header checksum
  have hchk : rd16 e (l4Buf e { buf := rewriteBuf e p srcB dstB, sz := p.sz }
      (rd32 e p.buf 12) (rd32 e p.buf 16)) 10
      = deltaIPv4Checksum (rd16 e p.buf 10) (rd32 e p.buf 12) (rd32 e p.buf 16)
          srcB dstB := by
    rw [rd16_l4Buf_frame e _ _ _ 10 (by simp only [hihs]; omega),
      rd16_rewriteBuf_check e p srcB dstB hcap, rd16_l4Buf_frame e p srcB dstB 10 (by omega)]
  have hframe : ∀ j, (j < 10 ∨ 20 ≤ j) → ¬ (k ≤ j ∧ j < k + 2) →
      peek (rewriteBuf e p srcB dstB) j = peek p.buf j := by
    intro j hj hnk
    rcases hj with hj | hj
    · exact hlow j hj
    · rw [peek_rewriteBuf_high e p srcB dstB j hj, hl41,
        peek_poke_frame _ _ _ _ (by rw [bytes16_length]; omega)]
  have houter : rewriteBuf e { buf := rewriteBuf e p srcB dstB, sz := p.sz }
      (rd32 e p.buf 12) (rd32 e p.buf 16)
      = poke (poke (poke (l4Buf e { buf := rewriteBuf e p srcB dstB, sz := p.sz }
          (rd32 e p.buf 12) (rd32 e p.buf 16)) 10
          (bytes16 e (deltaIPv4Checksum
            (rd16 e (l4Buf e { buf := rewriteBuf e p srcB dstB, sz := p.sz }
              (rd32 e p.buf 12) (rd32 e p.buf 16)) 10)
            (rd32 e (rewriteBuf e p srcB dstB) 12) (rd32 e (rewriteBuf e p srcB dstB) 16)
            (rd32 e p.buf 12) (rd32 e p.buf 16)))) 12 (bytes32 e (rd32 e p.buf 12))) 16
          (bytes32 e (rd32 e p.buf 16)) := rfl
  rw [houter, rd32_rewriteBuf_src e p srcB dstB hcap hB1,
    rd32_rewriteBuf_dst e p srcB dstB hcap hB2]
  rw [hchk, deltaIPv4Checksum_roundtrip _ _ _ _ _ (rd16_lt e p.buf hb 10) hA1 hA2 hB1 hB2,
    if_neg hchk0, hl42]
  exact restore_fields e _ p.buf k hk20 hb hlenq hframe

/-- C4, counterexample: the ICMP packet whose valid header checksum is `0x0000`, sent from
A = (10.0.0.1, 112.225.0.0); rewriting to B = (10.0.0.2, 112.225.0.0) and back to A
returns a packet that differs from the original (its checksum field is `0xFFFF`). -/
theorem UpdateIPv4Address_roundtrip_counterexample :
    load32 .little zeroCheckPacket.buf 12 = some 0x0100000A
      ∧ load32 .little zeroCheckPacket.buf 16 = some 0x0000E170
      ∧ UpdateIPv4Address .little zeroCheckPacket 0x0200000A 0x0000E170
          = some nearZeroCheckPacket
      ∧ UpdateIPv4Address .little nearZeroCheckPacket 0x0100000A 0x0000E170
          ≠ some zeroCheckPacket
      ∧ ∃ q, UpdateIPv4Address .little nearZeroCheckPacket 0x0100000A 0x0000E170 = some q
          ∧ load16 .little q.buf 10 = some 0xFFFF := by
  decide

/-- C4, amended: for every packet with `ihl` at least 5 and current addresses
A = (srcA, dstA), whose header checksum field is not `0x0000` and whose TCP or DCCP checksum
field, when the rewrite touches one, is not `0xFFFF`, and for every pair B = (srcB, dstB),
`UpdateIPv4Address` to B followed by `UpdateIPv4Address` to A returns the original packet,
every byte included. -/
theorem UpdateIPv4Address_roundtrip (e : ByteOrder) (p : IPPacket)
    (srcA dstA srcB dstB hl check : Nat) (hcap : 78 ≤ p.buf.length) (hwf : p.wf)
    (hihl : ihl p.buf = some hl) (h5 : 5 ≤ hl)
    (hsrc : load32 e p.buf 12 = some srcA) (hdst : load32 e p.buf 16 = some dstA)
    (hB1 : srcB < 4294967296) (hB2 : dstB < 4294967296)
    (hchk : load16 e p.buf 10 = some check) (hchk0 : check ≠ 0x0000)
    (ht : ∀ k, tcpCheckIndex e p = some k → load16 e p.buf k ≠ some 0xFFFF) :
    ∃ q, UpdateIPv4Address e p srcB dstB = some q
      ∧ UpdateIPv4Address e q srcA dstA = some p := by
  have hs := rd32_of_load32 e p.buf 12 srcA (by omega) hsrc
  have hd := rd32_of_load32 e p.buf 16 dstA (by omega) hdst
  have hc := rd16_of_load16 e p.buf 10 check (by omega) hchk
  have hihs := ihsOf_of_ihl p.buf hcap hl hihl
  subst hs hd hc
  refine ⟨_, UpdateIPv4Address_eq e p srcB dstB hcap, ?_⟩
  rw [UpdateIPv4Address_eq e _ _ _ (by simp only [length_rewriteBuf]; exact hcap)]
  simp only [rewriteBuf_roundtrip e p srcB dstB hcap hwf (by omega) hB1 hB2 hchk0 ht]

/-- Witness for the amended C4 on the sample TCP packet. -/
theorem UpdateIPv4Address_roundtrip_witness :
    ∃ q, UpdateIPv4Address .little samplePacket 0x0200000A 0x04040808 = some q
      ∧ UpdateIPv4Address .little q 0x0100000A 0x08080808 = some samplePacket :=
  UpdateIPv4Address_roundtrip .little samplePacket 0x0100000A 0x08080808 0x0200000A
    0x04040808 5 0xC020 (by decide) (by decide) (by decide) (by decide) (by decide)
    (by decide) (by decide) (by decide) (by decide) (by decide) (by decide)

/-! ## C5, C6, C7: the transport checksum field -/

/-- C5: for every packet with protocol 17 or 136 and `ihl` at least 5 (for every fragment
offset and size, in particular fragment offset 0 with the field inside the packet) and all
addresses, the 16-bit field at transport offset 6 is `0x0000` after `UpdateIPv4Address`
if and only if it was `0x0000` before. -/
theorem UpdateIPv4Address_udp_zero_iff (e : ByteOrder) (p : IPPacket)
    (nSrcIP nDstIP hl proto : Nat) (hcap : 78 ≤ p.buf.length) (hwf : p.wf)
    (hs : nSrcIP < 4294967296) (hd : nDstIP < 4294967296)
    (hihl : ihl p.buf = some hl) (h5 : 5 ≤ hl)
    (hproto : load8 p.buf 9 = some proto) (hp : proto = 17 ∨ proto = 136) :
    ∃ q c c', UpdateIPv4Address e p nSrcIP nDstIP = some q
      ∧ load16 e p.buf (hl * 4 + 6) = some c ∧ load16 e q.buf (hl * 4 + 6) = some c'
      ∧ (c' = 0x0000 ↔ c = 0x0000) := by
  have hihs := ihsOf_of_ihl p.buf hcap hl hihl
  have hle := ihsOf_le p.buf
  have hlen := length_rewriteBuf e p nSrcIP nDstIP
  have hpk := peek_of_load8 p.buf 9 proto (by omega) hproto
  refine ⟨_, _, _, UpdateIPv4Address_eq e p nSrcIP nDstIP hcap,
    load16_eq e p.buf _ (by omega), load16_eq e _ _ (by simp only [hlen]; omega), ?_⟩
  rw [rd16_rewriteBuf_high e p nSrcIP nDstIP _ (by omega)]
  rcases l4Buf_udp e p nSrcIP nDstIP (by rw [hpk]; exact hp) with h | ⟨hc, _, _, h⟩
  · rw [h]
  · rw [h, ← hihs, rd16_poke_same e p.buf _ _ (by omega) (deltaIPv4Checksum_lt _ _ _ _ _)]
    have hne := deltaIPv4Checksum_ne_zero (rd16 e p.buf (ihsOf p.buf + 6))
      (rd32 e p.buf 12) (rd32 e p.buf 16) nSrcIP nDstIP (rd16_lt e p.buf hwf.2 _) hc
      (rd32_lt e p.buf hwf.2 _) (rd32_lt e p.buf hwf.2 _) hs hd
    exact ⟨fun h0 => absurd h0 hne, fun h0 => absurd h0 hc⟩

/-- Witness for C5 on a UDP packet with a non-zero checksum field. -/
theorem UpdateIPv4Address_udp_zero_iff_witness :
    ∃ q c c', UpdateIPv4Address .little udpPacket 0x0200000A 0x08080808 = some q
      ∧ load16 .little udpPacket.buf (5 * 4 + 6) = some c
      ∧ load16 .little q.buf (5 * 4 + 6) = some c'
      ∧ (c' = 0x0000 ↔ c = 0x0000) :=
  UpdateIPv4Address_udp_zero_iff .little udpPacket 0x0200000A 0x08080808 5 17
    (by decide) (by decide) (by decide) (by decide) (by decide) (by decide) (by decide)
    (by decide)

/-- C6: for every IPv4 packet (header inside the packet, `ihl * 4 ≤ sz`) with protocol 6
(checksum offset 16) or 33 (checksum offset 6), `ihl` at least 5 and fragment byte offset
not greater than the checksum offset, the 16-bit field at transport offset
(checksum offset - fragoff) after `UpdateIPv4Address` is `d` if `d` is not `0xFFFF` and
`0x0000` if it is, where `d` is `deltaIPv4Checksum` of the old field and the old and new
addresses; the stored field is never `0xFFFF`. -/
theorem UpdateIPv4Address_tcp_normalized (e : ByteOrder) (p : IPPacket)
    (nSrcIP nDstIP hl frag_off proto off : Nat) (hcap : 78 ≤ p.buf.length)
    (hihl : ihl p.buf = some hl) (h5 : 5 ≤ hl) (hsz : hl * 4 ≤ p.sz)
    (hfo : load16 e p.buf 6 = some frag_off) (hproto : load8 p.buf 9 = some proto)
    (hoff : proto = 6 ∧ off = 16 ∨ proto = 33 ∧ off = 6)
    (hfrag : (ntohs e frag_off &&& 0x1FFF) * 8 ≤ off) :
    ∃ q c os od, UpdateIPv4Address e p nSrcIP nDstIP = some q
      ∧ load16 e p.buf (hl * 4 + off - (ntohs e frag_off &&& 0x1FFF) * 8) = some c
      ∧ load32 e p.buf 12 = some os ∧ load32 e p.buf 16 = some od
      ∧ load16 e q.buf (hl * 4 + off - (ntohs e frag_off &&& 0x1FFF) * 8)
          = some (if deltaIPv4Checksum c os od nSrcIP nDstIP = 0xFFFF then 0x0000
              else deltaIPv4Checksum c os od nSrcIP nDstIP)
      ∧ load16 e q.buf (hl * 4 + off - (ntohs e frag_off &&& 0x1FFF) * 8) ≠ some 0xFFFF := by
  have hihs := ihsOf_of_ihl p.buf hcap hl hihl
  have hle := ihsOf_le p.buf
  have hlen := length_rewriteBuf e p nSrcIP nDstIP
  have hpk := peek_of_load8 p.buf 9 proto (by omega) hproto
  have hfr : fragoffOf e p.buf = (ntohs e frag_off &&& 0x1FFF) * 8 := by
    simp only [fragoffOf, rd16_of_load16 e p.buf 6 frag_off (by omega) hfo]
  have hoff16 : off ≤ 16 := by omega
  have hval : rd16 e (rewriteBuf e p nSrcIP nDstIP)
      (hl * 4 + off - (ntohs e frag_off &&& 0x1FFF) * 8)
      = tcpField (rd16 e p.buf (hl * 4 + off - (ntohs e frag_off &&& 0x1FFF) * 8))
          (rd32 e p.buf 12) (rd32 e p.buf 16) nSrcIP nDstIP := by
    rw [rd16_rewriteBuf_high e p nSrcIP nDstIP _ (by omega),
      l4Buf_tcp e p nSrcIP nDstIP off (by omega) (by rw [hpk]; exact hoff) (by omega),
      hihs, hfr]
    exact rd16_poke_same e p.buf _ _ (by omega) (Nat.lt_succ_of_lt (tcpField_lt _ _ _ _ _))
  refine ⟨_, _, _, _, UpdateIPv4Address_eq e p nSrcIP nDstIP hcap,
    load16_eq e p.buf _ (by omega), load32_eq e p.buf 12 (by omega),
    load32_eq e p.buf 16 (by omega), ?_, ?_⟩
  · rw [load16_eq e _ _ (by simp only [hlen]; omega), hval]
    rfl
  · rw [load16_eq e _ _ (by simp only [hlen]; omega), hval]
    have := tcpField_lt (rd16 e p.buf (hl * 4 + off - (ntohs e frag_off &&& 0x1FFF) * 8))
      (rd32 e p.buf 12) (rd32 e p.buf 16) nSrcIP nDstIP
    intro h
    have h2 := Option.some.inj h
    omega

/-- Witness for C6 on the sample TCP packet. -/
theorem UpdateIPv4Address_tcp_normalized_witness :
    ∃ q c os od, UpdateIPv4Address .little samplePacket 0x0200000A 0x08080808 = some q
      ∧ load16 .little samplePacket.buf (5 * 4 + 16 - (ntohs .little 0x0040 &&& 0x1FFF) * 8)
          = some c
      ∧ load32 .little samplePacket.buf 12 = some os
      ∧ load32 .little samplePacket.buf 16 = some od
      ∧ load16 .little q.buf (5 * 4 + 16 - (ntohs .little 0x0040 &&& 0x1FFF) * 8)
          = some (if deltaIPv4Checksum c os od 0x0200000A 0x08080808 = 0xFFFF then 0x0000
              else deltaIPv4Checksum c os od 0x0200000A 0x08080808)
      ∧ load16 .little q.buf (5 * 4 + 16 - (ntohs .little 0x0040 &&& 0x1FFF) * 8)
          ≠ some 0xFFFF :=
  UpdateIPv4Address_tcp_normalized .little samplePacket 0x0200000A 0x08080808 5 0x0040 6 16
    (by decide) (by decide) (by decide) (by decide) (by decide) (by decide) (by decide)
    (by decide)

/-- C7, evaluation at the failing input: the packet has `sz = 20`, `ihl = 5` and
protocol 6; the rewrite returns and has changed the byte at index 36, which is not below
`sz`. -/
theorem UpdateIPv4Address_writes_beyond_sz :
    bareHeaderPacket.wf ∧ 20 ≤ bareHeaderPacket.sz
      ∧ bareHeaderPacket.sz ≤ bareHeaderPacket.buf.length
      ∧ ihl bareHeaderPacket.buf = some 5 ∧ 5 * 4 ≤ bareHeaderPacket.sz
      ∧ ∃ q, UpdateIPv4Address .little bareHeaderPacket 0x0200000A 0x08080808 = some q
        ∧ bareHeaderPacket.sz ≤ 36
        ∧ load8 bareHeaderPacket.buf 36 = some 0
        ∧ load8 q.buf 36 = some 0xFF := by
  decide

/-! ## C8 and C9: what the IPv4 rewrite installs and what it leaves alone -/

/-- C8: for every packet (any size, header length, protocol and fragment offset) whose
array has room for the largest header and a checksum field, and all 32-bit wire-order
`nSrcIP`, `nDstIP`, the call `UpdateIPv4Address` returns and afterwards `saddr` is `nSrcIP`
and `daddr` is `nDstIP`, so `srcv4` and `dstv4` give `ntohl nSrcIP` and `ntohl nDstIP`. -/
theorem UpdateIPv4Address_installs_addresses (e : ByteOrder) (p : IPPacket)
    (nSrcIP nDstIP : Nat) (hcap : 78 ≤ p.buf.length) (hs : nSrcIP < 4294967296)
    (hd : nDstIP < 4294967296) :
    ∃ q, UpdateIPv4Address e p nSrcIP nDstIP = some q
      ∧ load32 e q.buf 12 = some nSrcIP ∧ load32 e q.buf 16 = some nDstIP
      ∧ srcv4 e q = some (ntohl e nSrcIP) ∧ dstv4 e q = some (ntohl e nDstIP) := by
  refine ⟨_, UpdateIPv4Address_eq e p nSrcIP nDstIP hcap, ?_⟩
  have hlen := length_rewriteBuf e p nSrcIP nDstIP
  have h12 : load32 e (rewriteBuf e p nSrcIP nDstIP) 12 = some nSrcIP := by
    rw [load32_eq e _ 12 (by omega), rd32_rewriteBuf_src e p nSrcIP nDstIP hcap hs]
  have h16 : load32 e (rewriteBuf e p nSrcIP nDstIP) 16 = some nDstIP := by
    rw [load32_eq e _ 16 (by omega), rd32_rewriteBuf_dst e p nSrcIP nDstIP hcap hd]
  simp only [srcv4, dstv4, h12, h16, Option.map_some', and_self]

/-- Witness for C8 on the sample TCP packet. -/
theorem UpdateIPv4Address_installs_addresses_witness :
    ∃ q, UpdateIPv4Address .little samplePacket 0x0200000A 0x08080808 = some q
      ∧ load32 .little q.buf 12 = some 0x0200000A ∧ load32 .little q.buf 16 = some 0x08080808
      ∧ srcv4 .little q = some (ntohl .little 0x0200000A)
      ∧ dstv4 .little q = some (ntohl .little 0x08080808) :=
  UpdateIPv4Address_installs_addresses .little samplePacket 0x0200000A 0x08080808
    (by decide) (by decide) (by decide)

/-- C9, counterexample: a packet with `sz = 20` and `ihl = 0` (so `ihl * 4 ≤ sz`) and
protocol 17; the rewrite stores a checksum delta over bytes 6 and 7 of the header. -/
theorem UpdateIPv4Address_header_frame_counterexample :
    20 ≤ zeroIhlPacket.sz
      ∧ ihl zeroIhlPacket.buf = some 0 ∧ 0 * 4 ≤ zeroIhlPacket.sz
      ∧ ∃ q, UpdateIPv4Address .little zeroIhlPacket 0x0200000A 0x08080808 = some q
        ∧ load8 zeroIhlPacket.buf 7 = some 0
        ∧ load8 q.buf 7 = some 0xFF := by
  decide

/-- C9, amended: for every packet whose `ihl` is at least 5 (any size, protocol and
fragment offset), `UpdateIPv4Address` returns, leaves `sz` unchanged and leaves header
bytes 0 to 9 unchanged. -/
theorem UpdateIPv4Address_header_frame (e : ByteOrder) (p : IPPacket) (nSrcIP nDstIP hl : Nat)
    (hcap : 78 ≤ p.buf.length) (hihl : ihl p.buf = some hl) (h5 : 5 ≤ hl) :
    ∃ q, UpdateIPv4Address e p nSrcIP nDstIP = some q ∧ q.sz = p.sz
      ∧ ∀ j, j < 10 → load8 q.buf j = load8 p.buf j := by
  refine ⟨_, UpdateIPv4Address_eq e p nSrcIP nDstIP hcap, rfl, ?_⟩
  intro j hj
  have hihs := ihsOf_of_ihl p.buf hcap hl hihl
  have hlen := length_rewriteBuf e p nSrcIP nDstIP
  rw [load8_eq _ j (by simp only [hlen]; omega), load8_eq _ j (by omega),
    peek_rewriteBuf_low e p nSrcIP nDstIP j hj, peek_l4Buf_frame e p nSrcIP nDstIP j (by omega)]

/-- Witness for the amended C9 on the sample TCP packet. -/
theorem UpdateIPv4Address_header_frame_witness :
    ∃ q, UpdateIPv4Address .little samplePacket 0x0200000A 0x08080808 = some q
      ∧ q.sz = samplePacket.sz ∧ ∀ j, j < 10 → load8 q.buf j = load8 samplePacket.buf j :=
  UpdateIPv4Address_header_frame .little samplePacket 0x0200000A 0x08080808 5
    (by decide) (by decide) (by decide)

/-! ## C10: the IPv6 rewrite and the transport checksum -/

/-- C10, evaluation at the failing input: a TCP segment over IPv6 with `sz = 60` and a
checksum field inside the packet; `UpdateIPv6Address` installs the new source address and
leaves the checksum field at its old value `0xE403`, whereas `deltaIPv6Checksum` of the
old field and the old and new address words is `0xE003`. -/
theorem UpdateIPv6Address_leaves_tcp_checksum :
    40 < tcp6Packet.sz ∧ load8 tcp6Packet.buf 6 = some 6 ∧ 56 + 2 ≤ tcp6Packet.sz
      ∧ loadWords4 .little tcp6Packet.buf 8 = some (3087860000, 0, 0, 16777216)
      ∧ loadWords4 .little tcp6Packet.buf 24 = some (3087860000, 0, 0, 33554432)
      ∧ load16 .little tcp6Packet.buf 56 = some 0xE403
      ∧ ∃ q, UpdateIPv6Address .little tcp6Packet 0x20010db8000000000000000000000005
            0x20010db8000000000000000000000002 = some q
          ∧ loadWords4 .little q.buf 8 = some (3087860000, 0, 0, 83886080)
          ∧ loadWords4 .little q.buf 24 = some (3087860000, 0, 0, 33554432)
          ∧ load16 .little q.buf 56 = some 0xE403
          ∧ deltaIPv6Checksum 0xE403 (3087860000, 0, 0, 16777216) (3087860000, 0, 0, 33554432)
              (3087860000, 0, 0, 83886080) (3087860000, 0, 0, 33554432) = 0xE003 := by
  decide

/-! ## C11: the exact effect of the IPv6 rewrite -/

theorem leBytes_length : ∀ (n x : Nat), (leBytes n x).length = n
  | 0, _ => rfl
  | n + 1, x => by simp [leBytes, leBytes_length n]

theorem bytesOk_leBytes : ∀ (n x : Nat), bytesOk (leBytes n x)
  | 0, _ => by intro b hb; simp [leBytes] at hb
  | n + 1, x => by
    intro b hb
    simp only [leBytes, List.mem_cons] at hb
    rcases hb with h | h
    · rw [h]; exact Nat.mod_lt _ (by decide)
    · exact bytesOk_leBytes n _ b h

theorem ofLeBytes_leBytes : ∀ (n x : Nat), ofLeBytes (leBytes n x) = x % 256 ^ n
  | 0, x => by simp [leBytes, ofLeBytes, Nat.mod_one]
  | n + 1, x => by
    simp only [leBytes, ofLeBytes, ofLeBytes_leBytes n]
    rw [Nat.pow_succ, Nat.mul_comm (256 ^ n) 256, Nat.mod_mul]

theorem leBytes_ofLeBytes : ∀ (l : List Nat), bytesOk l → leBytes l.length (ofLeBytes l) = l
  | [], _ => rfl
  | b :: bs, h => by
    have hb : b < 256 := h b (List.mem_cons_self _ _)
    have ih := leBytes_ofLeBytes bs (fun x hx => h x (List.mem_cons_of_mem _ hx))
    simp only [List.length_cons, leBytes, ofLeBytes]
    have h1 : (b + 256 * ofLeBytes bs) % 256 = b := by omega
    have h2 : (b + 256 * ofLeBytes bs) / 256 = ofLeBytes bs := by omega
    rw [h1, h2, ih]

theorem leBytes_mod : ∀ (n x : Nat), leBytes n (x % 256 ^ n) = leBytes n x
  | 0, _ => rfl
  | n + 1, x => by
    simp only [leBytes]
    have h1 : x % 256 ^ (n + 1) % 256 = x % 256 := by
      rw [Nat.pow_succ, Nat.mul_comm (256 ^ n) 256, Nat.mod_mul_right_mod]
    have h2 : x % 256 ^ (n + 1) / 256 = (x / 256) % 256 ^ n := by
      rw [Nat.pow_succ, Nat.mul_comm (256 ^ n) 256, Nat.mod_mul_right_div_self]
    rw [h1, h2, leBytes_mod n]

theorem bytesOk_reverse (l : List Nat) (h : bytesOk l) : bytesOk l.reverse :=
  fun b hb => h b (List.mem_reverse.mp hb)

theorem HUIntToIn6_eq (e : ByteOrder) (x : Nat) : HUIntToIn6 e x = beBytes128 x := by
  cases e
  · have hb := bytesOk_reverse _ (bytesOk_leBytes 16 x)
    have hl : (leBytes 16 x).reverse.length = 16 := by
      rw [List.length_reverse, leBytes_length]
    have h := leBytes_ofLeBytes (leBytes 16 x).reverse hb
    rw [hl] at h
    simp only [HUIntToIn6, bytes128, ntoh128, beBytes128, h]
  · have h := leBytes_mod 16 x
    have e16 : (256 : Nat) ^ 16 = 2 ^ 128 := by decide
    rw [e16] at h
    simp only [HUIntToIn6, bytes128, ntoh128, beBytes128, h]

theorem beBytes128_length (x : Nat) : (beBytes128 x).length = 16 := by
  rw [beBytes128, List.length_reverse, leBytes_length]

theorem peek_drop (l : List Nat) (n j : Nat) : peek (l.drop n) j = peek l (n + j) := by
  simp only [peek, List.getElem?_drop]

theorem slice_poke (buf bs : List Nat) (i : Nat) (h : i + bs.length ≤ buf.length) :
    ((poke buf i bs).drop i).take bs.length = bs := by
  apply ext_peek
  · rw [List.length_take, List.length_drop, length_poke]; omega
  · intro j hj
    rw [List.length_take, List.length_drop, length_poke] at hj
    rw [peek_take _ _ _ (by omega), peek_drop, peek_poke, if_pos (by omega),
      Nat.add_sub_cancel_left]

theorem load8_congr (b1 b2 : List Nat) (j : Nat) (hlen : b1.length = b2.length)
    (h : peek b1 j = peek b2 j) : load8 b1 j = load8 b2 j := by
  unfold load8
  by_cases hj : j < b1.length
  · rw [getElem?_eq_peek b1 j hj, getElem?_eq_peek b2 j (by omega), h]
  · rw [List.getElem?_eq_none (by omega), List.getElem?_eq_none (by omega)]

theorem UpdateIPv6Address_eq (e : ByteOrder) (p : IPPacket) (src dst : Nat)
    (hcap : p.sz ≤ p.buf.length) (hsz : 40 < p.sz) :
    UpdateIPv6Address e p src dst
      = some { buf := poke (poke p.buf 8 (beBytes128 src)) 24 (beBytes128 dst), sz := p.sz } := by
  have hl1 : (poke p.buf 8 (beBytes128 src)).length = p.buf.length := length_poke _ _ _
  have hl2 : (poke (poke p.buf 8 (beBytes128 src)) 24 (beBytes128 dst)).length
      = p.buf.length := by rw [length_poke, length_poke]
  unfold UpdateIPv6Address
  rw [if_neg (by omega)]
  simp only [loadBytes, storeBytes, HUIntToIn6_eq, beBytes128_length,
    if_pos (show 8 + 16 ≤ p.buf.length by omega),
    if_pos (show 24 + 16 ≤ p.buf.length by omega), hl1,
    if_pos (show 24 + 16 ≤ p.buf.length by omega), Option.bind_eq_bind, Option.some_bind,
    load8_eq _ 6 (show 6 < (poke (poke p.buf 8 (beBytes128 src)) 24
      (beBytes128 dst)).length by omega)]
  split <;> rfl

/-- C11: for every packet with `sz` within the capacity: if `sz ≤ 40` the call of
`UpdateIPv6Address` returns the packet unchanged; if `sz > 40` it returns a packet of the
same size whose bytes 8 to 23 are the sixteen-byte big-endian encoding of `src`, whose
bytes 24 to 39 are that of `dst`, and whose every other byte (the first 8 header bytes and
the whole payload, for every value of `proto`) is unchanged. -/
theorem UpdateIPv6Address_effect (e : ByteOrder) (p : IPPacket) (src dst : Nat)
    (hcap : p.sz ≤ p.buf.length) :
    (p.sz ≤ 40 → UpdateIPv6Address e p src dst = some p)
      ∧ (40 < p.sz → ∃ q, UpdateIPv6Address e p src dst = some q
          ∧ q.sz = p.sz ∧ q.buf.length = p.buf.length
          ∧ loadBytes q.buf 8 16 = some (beBytes128 src)
          ∧ loadBytes q.buf 24 16 = some (beBytes128 dst)
          ∧ ∀ j, (j < 8 ∨ 40 ≤ j) → load8 q.buf j = load8 p.buf j) := by
  constructor
  · intro h
    simp only [UpdateIPv6Address, if_pos h]
  · intro hsz
    have heq := UpdateIPv6Address_eq e p src dst hcap hsz
    have hSl := beBytes128_length src
    have hDl := beBytes128_length dst
    generalize beBytes128 src = S at heq hSl ⊢
    generalize beBytes128 dst = D at heq hDl ⊢
    have hl2 : (poke (poke p.buf 8 S) 24 D).length = p.buf.length := by
      rw [length_poke, length_poke]
    rw [heq]
    refine ⟨{ buf := poke (poke p.buf 8 S) 24 D, sz := p.sz }, rfl, rfl, hl2, ?_, ?_, ?_⟩
    · show loadBytes (poke (poke p.buf 8 S) 24 D) 8 16 = _
      rw [loadBytes, if_pos (by omega)]
      congr 1
      apply ext_peek
      · rw [List.length_take, List.length_drop, hl2, hSl]; omega
      · intro j hj
        rw [List.length_take, List.length_drop, hl2] at hj
        rw [peek_take _ _ _ (by omega), peek_drop,
          peek_poke_frame _ _ _ _ (by omega), peek_poke, hSl,
          if_pos (by omega), Nat.add_sub_cancel_left]
    · show loadBytes (poke (poke p.buf 8 S) 24 D) 24 16 = _
      rw [loadBytes, if_pos (by omega)]
      congr 1
      have h := slice_poke (poke p.buf 8 S) D 24 (by rw [length_poke, hDl]; omega)
      rw [hDl] at h
      exact h
    · intro j hj
      apply load8_congr _ _ _ hl2
      rw [peek_poke_frame _ _ _ _ (by rw [hDl]; omega),
        peek_poke_frame _ _ _ _ (by rw [hSl]; omega)]

/-- Witness for C11 on the TCP segment over IPv6 (`sz = 60`). -/
theorem UpdateIPv6Address_effect_witness :
    (tcp6Packet.sz ≤ 40 → UpdateIPv6Address .little tcp6Packet 5 7 = some tcp6Packet)
      ∧ (40 < tcp6Packet.sz → ∃ q, UpdateIPv6Address .little tcp6Packet 5 7 = some q
          ∧ q.sz = tcp6Packet.sz ∧ q.buf.length = tcp6Packet.buf.length
          ∧ loadBytes q.buf 8 16 = some (beBytes128 5)
          ∧ loadBytes q.buf 24 16 = some (beBytes128 7)
          ∧ ∀ j, (j < 8 ∨ 40 ≤ j) → load8 q.buf j = load8 tcp6Packet.buf j) :=
  UpdateIPv6Address_effect .little tcp6Packet 5 7 (by decide)

/-! ## C12, C13, C14: loading a packet and the IPv4-mapped addresses -/

theorem take_poke_zero (buf bs : List Nat) (h : bs.length ≤ buf.length) :
    (poke buf 0 bs).take bs.length = bs := by
  apply ext_peek
  · rw [List.length_take, length_poke]; omega
  · intro j hj
    rw [List.length_take, length_poke] at hj
    rw [peek_take _ _ _ (by omega), peek_poke, if_pos (by omega), Nat.sub_zero]

/-- C12: for every packet state and every byte sequence `b`, `Load` returns false exactly
when `b` is longer than the capacity; on false the packet (size and all bytes) is as before;
on true `sz` is the length of `b` and the first `sz` bytes of the array are `b`. -/
theorem Load_atomic (p : IPPacket) (b : List Nat) :
    ((Load p b).2 = false ↔ b.length > p.buf.length)
      ∧ ((Load p b).2 = false → (Load p b).1 = p)
      ∧ ((Load p b).2 = true →
          (Load p b).1.sz = b.length ∧ (Load p b).1.buf.take (Load p b).1.sz = b) := by
  unfold Load
  by_cases h : b.length > p.buf.length
  · simp [h]
  · rw [if_neg h]
    have htf : ¬ (true = false) := by decide
    refine ⟨⟨fun hf => absurd hf htf, fun hb => absurd hb h⟩,
      fun hf => absurd hf htf, fun _ => ⟨rfl, ?_⟩⟩
    exact take_poke_zero p.buf b (by omega)

/-- Witness for C12: a load of three bytes into the sample packet, and a refused load of
79 bytes. -/
theorem Load_atomic_witness :
    (((Load samplePacket [1, 2, 3]).2 = false ↔ [1, 2, 3].length > samplePacket.buf.length)
      ∧ ((Load samplePacket [1, 2, 3]).2 = false → (Load samplePacket [1, 2, 3]).1 = samplePacket)
      ∧ ((Load samplePacket [1, 2, 3]).2 = true →
          (Load samplePacket [1, 2, 3]).1.sz = [1, 2, 3].length
            ∧ (Load samplePacket [1, 2, 3]).1.buf.take (Load samplePacket [1, 2, 3]).1.sz
                = [1, 2, 3]))
      ∧ (Load samplePacket (List.replicate 79 7)).2 = false :=
  ⟨Load_atomic samplePacket [1, 2, 3], by decide⟩

theorem expand_or (a : Nat) (ha : a < 4294967296) :
    (0xff <<< 40) ||| (0xff <<< 32) ||| a = 0xFFFF * 2 ^ 32 + a := by
  have h1 : (0xff <<< 40) ||| (0xff <<< 32) = 2 ^ 32 * 0xFFFF := by decide
  rw [h1, ← Nat.mul_add_lt_is_or (by omega) 0xFFFF]
  omega

theorem ExpandV4_eq (a : Nat) (ha : a < 4294967296) :
    ExpandV4 a = 0xFFFF * 2 ^ 32 + a := by
  unfold ExpandV4
  simp only []
  rw [Nat.mod_eq_of_lt (show a < 2 ^ 32 from ha), expand_or a ha]
  apply Nat.mod_eq_of_lt
  have : (2 : Nat) ^ 128 = 340282366920938463463374607431768211456 := by decide
  omega

/-- C13: for every 32-bit host-order address `a`, `TruncateV6 (ExpandV4 a) = a`. -/
theorem TruncateV6_ExpandV4 (a : Nat) (ha : a < 4294967296) :
    TruncateV6 (ExpandV4 a) = a := by
  rw [ExpandV4_eq a ha]
  unfold TruncateV6
  rw [Nat.and_pow_two_sub_one_eq_mod _ 32]
  omega

/-- Witness for C13 at the address 10.0.0.1. -/
theorem TruncateV6_ExpandV4_witness : TruncateV6 (ExpandV4 0x0A000001) = 0x0A000001 :=
  TruncateV6_ExpandV4 0x0A000001 (by decide)

/-- C14: for every 32-bit host-order address `a`, `ExpandV4 a` is the 128-bit integer
`0xFFFF * 2 ^ 32 + a`: bits 32 to 47 are ones, the bits above are zero and the low 32 bits
are `a`. -/
theorem ExpandV4_mapped (a : Nat) (ha : a < 4294967296) :
    ExpandV4 a = 0xFFFF * 2 ^ 32 + a
      ∧ ExpandV4 a % 2 ^ 32 = a ∧ ExpandV4 a / 2 ^ 32 = 0xFFFF := by
  rw [ExpandV4_eq a ha]
  refine ⟨rfl, ?_, ?_⟩ <;> omega

/-- Witness for C14 at the address 10.0.0.1. -/
theorem ExpandV4_mapped_witness :
    ExpandV4 0x0A000001 = 0xFFFF * 2 ^ 32 + 0x0A000001
      ∧ ExpandV4 0x0A000001 % 2 ^ 32 = 0x0A000001 ∧ ExpandV4 0x0A000001 / 2 ^ 32 = 0xFFFF :=
  ExpandV4_mapped 0x0A000001 (by decide)

/-! ## C15 and C16: the 128-bit conversions -/

theorem length16 (l : List Nat) (h : l.length = 16) :
    ∃ a0 a1 a2 a3 a4 a5 a6 a7 a8 a9 a10 a11 a12 a13 a14 a15 : Nat,
      l = [a0, a1, a2, a3, a4, a5, a6, a7, a8, a9, a10, a11, a12, a13, a14, a15] := by
  rcases l with _ | ⟨a0, l⟩
  · simp only [List.length_cons, List.length_nil] at h; omega
  rcases l with _ | ⟨a1, l⟩
  · simp only [List.length_cons, List.length_nil] at h; omega
  rcases l with _ | ⟨a2, l⟩
  · simp only [List.length_cons, List.length_nil] at h; omega
  rcases l with _ | ⟨a3, l⟩
  · simp only [List.length_cons, List.length_nil] at h; omega
  rcases l with _ | ⟨a4, l⟩
  · simp only [List.length_cons, List.length_nil] at h; omega
  rcases l with _ | ⟨a5, l⟩
  · simp only [List.length_cons, List.length_nil] at h; omega
  rcases l with _ | ⟨a6, l⟩
  · simp only [List.length_cons, List.length_nil] at h; omega
  rcases l with _ | ⟨a7, l⟩
  · simp only [List.length_cons, List.length_nil] at h; omega
  rcases l with _ | ⟨a8, l⟩
  · simp only [List.length_cons, List.length_nil] at h; omega
  rcases l with _ | ⟨a9, l⟩
  · simp only [List.length_cons, List.length_nil] at h; omega
  rcases l with _ | ⟨a10, l⟩
  · simp only [List.length_cons, List.length_nil] at h; omega
  rcases l with _ | ⟨a11, l⟩
  · simp only [List.length_cons, List.length_nil] at h; omega
  rcases l with _ | ⟨a12, l⟩
  · simp only [List.length_cons, List.length_nil] at h; omega
  rcases l with _ | ⟨a13, l⟩
  · simp only [List.length_cons, List.length_nil] at h; omega
  rcases l with _ | ⟨a14, l⟩
  · simp only [List.length_cons, List.length_nil] at h; omega
  rcases l with _ | ⟨a15, l⟩
  · simp only [List.length_cons, List.length_nil] at h; omega
  rcases l with _ | ⟨x, l⟩
  · exact ⟨a0, a1, a2, a3, a4, a5, a6, a7, a8, a9, a10, a11, a12, a13, a14, a15, rfl⟩
  · simp only [List.length_cons] at h; omega

theorem ntohl_word32_little (a b c d : Nat) (ha : a < 256) (hb : b < 256) (hc : c < 256)
    (hd : d < 256) :
    ntohl .little (word32 .little a b c d) = 16777216 * a + 65536 * b + 256 * c + d := by
  simp only [ntohl, word32]
  omega

theorem or_shift4 (w3 w2 w1 w0 : Nat) (h3 : w3 < 4294967296) (h2 : w2 < 4294967296)
    (h1 : w1 < 4294967296) (h0 : w0 < 4294967296) :
    (w3 ||| (w2 <<< 32) ||| (w1 <<< 64) ||| (w0 <<< 96)) % 2 ^ 128
      = w3 + 2 ^ 32 * w2 + 2 ^ 64 * w1 + 2 ^ 96 * w0 := by
  have e32 : (2 : Nat) ^ 32 = 4294967296 := by decide
  have e64 : (2 : Nat) ^ 64 = 18446744073709551616 := by decide
  have e96 : (2 : Nat) ^ 96 = 79228162514264337593543950336 := by decide
  have e128 : (2 : Nat) ^ 128 = 340282366920938463463374607431768211456 := by decide
  have s1 : w3 ||| (w2 <<< 32) = 2 ^ 32 * w2 + w3 := by
    rw [Nat.shiftLeft_eq, Nat.mul_comm w2, Nat.or_comm]
    exact (Nat.mul_add_lt_is_or (by omega) w2).symm
  have s2 : (2 ^ 32 * w2 + w3) ||| (w1 <<< 64) = 2 ^ 64 * w1 + (2 ^ 32 * w2 + w3) := by
    rw [Nat.shiftLeft_eq, Nat.mul_comm w1, Nat.or_comm]
    exact (Nat.mul_add_lt_is_or (by omega) w1).symm
  have s3 : (2 ^ 64 * w1 + (2 ^ 32 * w2 + w3)) ||| (w0 <<< 96)
      = 2 ^ 96 * w0 + (2 ^ 64 * w1 + (2 ^ 32 * w2 + w3)) := by
    rw [Nat.shiftLeft_eq, Nat.mul_comm w0, Nat.or_comm]
    exact (Nat.mul_add_lt_is_or (by omega) w0).symm
  rw [s1, s2, s3, Nat.mod_eq_of_lt (by omega)]
  omega

theorem In6ToHUInt_little_eq (l : List Nat) (hlen : l.length = 16) (hb : bytesOk l) :
    In6ToHUInt .little l = ofLeBytes l.reverse := by
  obtain ⟨a0, a1, a2, a3, a4, a5, a6, a7, a8, a9, a10, a11, a12, a13, a14, a15, rfl⟩ := length16 l hlen
  have h0 : a0 < 256 := hb a0 (by simp)
  have h1 : a1 < 256 := hb a1 (by simp)
  have h2 : a2 < 256 := hb a2 (by simp)
  have h3 : a3 < 256 := hb a3 (by simp)
  have h4 : a4 < 256 := hb a4 (by simp)
  have h5 : a5 < 256 := hb a5 (by simp)
  have h6 : a6 < 256 := hb a6 (by simp)
  have h7 : a7 < 256 := hb a7 (by simp)
  have h8 : a8 < 256 := hb a8 (by simp)
  have h9 : a9 < 256 := hb a9 (by simp)
  have h10 : a10 < 256 := hb a10 (by simp)
  have h11 : a11 < 256 := hb a11 (by simp)
  have h12 : a12 < 256 := hb a12 (by simp)
  have h13 : a13 < 256 := hb a13 (by simp)
  have h14 : a14 < 256 := hb a14 (by simp)
  have h15 : a15 < 256 := hb a15 (by simp)
  have hdef : In6ToHUInt .little [a0, a1, a2, a3, a4, a5, a6, a7, a8, a9, a10, a11, a12, a13, a14, a15]
      = (ntohl .little (word32 .little a12 a13 a14 a15)
          ||| (ntohl .little (word32 .little a8 a9 a10 a11) <<< 32)
          ||| (ntohl .little (word32 .little a4 a5 a6 a7) <<< 64)
          ||| (ntohl .little (word32 .little a0 a1 a2 a3) <<< 96)) % 2 ^ 128 := rfl
  have hrev : [a0, a1, a2, a3, a4, a5, a6, a7, a8, a9, a10, a11, a12, a13, a14, a15].reverse
      = [a15, a14, a13, a12, a11, a10, a9, a8, a7, a6, a5, a4, a3, a2, a1, a0] := rfl
  rw [hdef, hrev, ntohl_word32_little a12 a13 a14 a15 h12 h13 h14 h15,
    ntohl_word32_little a8 a9 a10 a11 h8 h9 h10 h11,
    ntohl_word32_little a4 a5 a6 a7 h4 h5 h6 h7,
    ntohl_word32_little a0 a1 a2 a3 h0 h1 h2 h3,
    or_shift4 _ _ _ _ (by omega) (by omega) (by omega) (by omega)]
  simp only [ofLeBytes]
  have e32 : (2 : Nat) ^ 32 = 4294967296 := by decide
  have e64 : (2 : Nat) ^ 64 = 18446744073709551616 := by decide
  have e96 : (2 : Nat) ^ 96 = 79228162514264337593543950336 := by decide
  omega

/-- C15: on a little-endian host, `In6ToHUInt (HUIntToIn6 x) = x` for every 128-bit value
`x`, and `HUIntToIn6 (In6ToHUInt a) = a` for every sixteen-byte address `a`. -/
theorem In6ToHUInt_HUIntToIn6_little (x : Nat) (a : List Nat)
    (hx : x < 2 ^ 128) (hlen : a.length = 16) (hb : bytesOk a) :
    In6ToHUInt .little (HUIntToIn6 .little x) = x
      ∧ HUIntToIn6 .little (In6ToHUInt .little a) = a := by
  constructor
  · rw [HUIntToIn6_eq, In6ToHUInt_little_eq _ (beBytes128_length x)
      (bytesOk_reverse _ (bytesOk_leBytes 16 x)), beBytes128, List.reverse_reverse,
      ofLeBytes_leBytes]
    have e16 : (256 : Nat) ^ 16 = 2 ^ 128 := by decide
    rw [e16]
    exact Nat.mod_eq_of_lt hx
  · rw [In6ToHUInt_little_eq a hlen hb, HUIntToIn6_eq, beBytes128]
    have hl : a.reverse.length = 16 := by rw [List.length_reverse, hlen]
    have h := leBytes_ofLeBytes a.reverse (bytesOk_reverse a hb)
    rw [hl] at h
    rw [h, List.reverse_reverse]

/-- Witness for C15 at the value 1 and the loopback address. -/
theorem In6ToHUInt_HUIntToIn6_little_witness :
    In6ToHUInt .little (HUIntToIn6 .little 1) = 1
      ∧ HUIntToIn6 .little (In6ToHUInt .little loopback6) = loopback6 :=
  In6ToHUInt_HUIntToIn6_little 1 loopback6 (by decide) (by decide) (by decide)

/-- C16, evaluation at the failing input: for the wire address `::1` the little-endian
branch of `In6ToHUInt` returns 1, the value with wire word 0 in the most significant 32
bits, whereas the big-endian branch returns `2 ^ 96`, with wire word 3 in the most
significant 32 bits; on a big-endian host `HUIntToIn6 1` is `::1`, so the two conversions
do not invert each other there. -/
theorem In6ToHUInt_big_endian_branch :
    In6ToHUInt .little loopback6 = 1
      ∧ ofLeBytes loopback6.reverse = 1
      ∧ In6ToHUInt .big loopback6 = 2 ^ 96
      ∧ HUIntToIn6 .big 1 = loopback6
      ∧ In6ToHUInt .big (HUIntToIn6 .big 1) ≠ 1 := by
  decide

/-! ## C17: packets whose transport checksum is not rewritten -/

theorem l4Buf_skip (e : ByteOrder) (p : IPPacket) (ns nd : Nat)
    (h : ihsOf p.buf > p.sz
      ∨ (peek p.buf 9 ≠ 6 ∧ peek p.buf 9 ≠ 17 ∧ peek p.buf 9 ≠ 33 ∧ peek p.buf 9 ≠ 136)
      ∨ fragoffOf e p.buf > checksumOffset (peek p.buf 9)) :
    l4Buf e p ns nd = p.buf := by
  unfold l4Buf
  unfold checksumOffset at h
  split
  · rename_i hsz
    split
    · rename_i h6
      rw [if_pos h6] at h
      rw [if_pos (by omega)]
    · rename_i h6
      rw [if_neg h6] at h
      split
      · rw [if_pos (by omega)]
      · split
        · rw [if_pos (by omega)]
        · rfl
  · rfl

/-- C17: for every packet such that `ihl * 4 > sz`, or the protocol is none of 6, 17, 33
and 136, or the fragment byte offset exceeds the checksum offset of the protocol (16 for
TCP, 6 for UDP, UDP-Lite and DCCP), `UpdateIPv4Address` returns a packet of the same size
in which `check` is `deltaIPv4Checksum` of the old check and the old and new addresses,
`saddr` and `daddr` are the new addresses, and every byte outside bytes 10 to 19 is
unchanged. -/
theorem UpdateIPv4Address_no_transport (e : ByteOrder) (p : IPPacket)
    (nSrcIP nDstIP hl frag_off proto : Nat) (hcap : 78 ≤ p.buf.length)
    (hs : nSrcIP < 4294967296) (hd : nDstIP < 4294967296)
    (hihl : ihl p.buf = some hl) (hfo : load16 e p.buf 6 = some frag_off)
    (hproto : load8 p.buf 9 = some proto)
    (hskip : hl * 4 > p.sz
      ∨ (proto ≠ 6 ∧ proto ≠ 17 ∧ proto ≠ 33 ∧ proto ≠ 136)
      ∨ (ntohs e frag_off &&& 0x1FFF) * 8 > checksumOffset proto) :
    ∃ q check os od, UpdateIPv4Address e p nSrcIP nDstIP = some q
      ∧ load16 e p.buf 10 = some check
      ∧ load32 e p.buf 12 = some os ∧ load32 e p.buf 16 = some od
      ∧ load16 e q.buf 10 = some (deltaIPv4Checksum check os od nSrcIP nDstIP)
      ∧ load32 e q.buf 12 = some nSrcIP ∧ load32 e q.buf 16 = some nDstIP
      ∧ q.sz = p.sz ∧ q.buf.length = p.buf.length
      ∧ ∀ j, (j < 10 ∨ 20 ≤ j) → load8 q.buf j = load8 p.buf j := by
  have hihs := ihsOf_of_ihl p.buf hcap hl hihl
  have hlenq := length_rewriteBuf e p nSrcIP nDstIP
  have hpk := peek_of_load8 p.buf 9 proto (by omega) hproto
  have hfr : fragoffOf e p.buf = (ntohs e frag_off &&& 0x1FFF) * 8 := by
    simp only [fragoffOf, rd16_of_load16 e p.buf 6 frag_off (by omega) hfo]
  have hl4 : l4Buf e p nSrcIP nDstIP = p.buf :=
    l4Buf_skip e p nSrcIP nDstIP (by rw [hihs, hpk, hfr]; exact hskip)
  refine ⟨{ buf := rewriteBuf e p nSrcIP nDstIP, sz := p.sz }, rd16 e p.buf 10,
    rd32 e p.buf 12, rd32 e p.buf 16, UpdateIPv4Address_eq e p nSrcIP nDstIP hcap,
    load16_eq e p.buf 10 (by omega), load32_eq e p.buf 12 (by omega),
    load32_eq e p.buf 16 (by omega), ?_, ?_, ?_, rfl, hlenq, ?_⟩
  · show load16 e (rewriteBuf e p nSrcIP nDstIP) 10 = _
    rw [load16_eq e _ 10 (by omega), rd16_rewriteBuf_check e p nSrcIP nDstIP hcap, hl4]
  · show load32 e (rewriteBuf e p nSrcIP nDstIP) 12 = _
    rw [load32_eq e _ 12 (by omega), rd32_rewriteBuf_src e p nSrcIP nDstIP hcap hs]
  · show load32 e (rewriteBuf e p nSrcIP nDstIP) 16 = _
    rw [load32_eq e _ 16 (by omega), rd32_rewriteBuf_dst e p nSrcIP nDstIP hcap hd]
  · intro j hj
    apply load8_congr _ _ _ hlenq
    rcases hj with hj | hj
    · rw [peek_rewriteBuf_low e p nSrcIP nDstIP j hj, hl4]
    · rw [peek_rewriteBuf_high e p nSrcIP nDstIP j hj, hl4]

/-- Witness for C17 on a later fragment of a TCP datagram (fragment byte offset 24). -/
theorem UpdateIPv4Address_no_transport_witness :
    ∃ q check os od, UpdateIPv4Address .little laterFragmentPacket 0x0200000A 0x08080808
        = some q
      ∧ load16 .little laterFragmentPacket.buf 10 = some check
      ∧ load32 .little laterFragmentPacket.buf 12 = some os
      ∧ load32 .little laterFragmentPacket.buf 16 = some od
      ∧ load16 .little q.buf 10 = some (deltaIPv4Checksum check os od 0x0200000A 0x08080808)
      ∧ load32 .little q.buf 12 = some 0x0200000A
      ∧ load32 .little q.buf 16 = some 0x08080808
      ∧ q.sz = laterFragmentPacket.sz ∧ q.buf.length = laterFragmentPacket.buf.length
      ∧ ∀ j, (j < 10 ∨ 20 ≤ j) → load8 q.buf j = load8 laterFragmentPacket.buf j :=
  UpdateIPv4Address_no_transport .little laterFragmentPacket 0x0200000A 0x08080808 5 0x0300 6
    (by decide) (by decide) (by decide) (by decide) (by decide) (by decide) (by decide)

/-! ## C18, C19, C20: arithmetic of the checksum delta -/

theorem fullFold_eq_fold2 (s : Nat) (h : s < 4294967296) :
    fullFold s = fold2 s % 65536 := by
  rw [fold2_cases s h, fullFold]
  have h1 : s / 65536 < 65536 := by omega
  have h2 : s % 65536 < 65536 := Nat.mod_lt _ (by decide)
  by_cases hs : s < 65536
  · have e1 : s % 65536 = s := Nat.mod_eq_of_lt hs
    have e2 : s / 65536 = 0 := by omega
    rw [dif_pos (by omega), e1, e2, Nat.add_zero, if_pos hs]
  · rw [dif_neg (by omega), and_ffff, shr_16, fullFold]
    by_cases hs1 : s % 65536 + s / 65536 < 65536
    · rw [dif_pos (by omega), if_pos hs1]
    · rw [dif_neg (by omega), if_neg hs1, and_ffff, shr_16, fullFold]
      have e3 : (s % 65536 + s / 65536) % 65536 + (s % 65536 + s / 65536) / 65536
          = s % 65536 + s / 65536 - 65535 := by omega
      rw [e3, dif_pos (by omega)]

theorem folds_no_overflow (s : Nat) (h : s < 4294967296) :
    (s &&& 0xFFFF) + (s >>> 16) < 4294967296
      ∧ ((s &&& 0xFFFF) + (s >>> 16)) + (((s &&& 0xFFFF) + (s >>> 16)) >>> 16) < 4294967296 := by
  simp only [and_ffff, shr_16]
  omega

theorem SUB32CS_le (x : Nat) : SUB32CS x ≤ 131070 := by
  simp only [SUB32CS, not32, and_ffff, shr_16]
  omega

theorem ADD32CS_le (x : Nat) (h : x < 4294967296) : ADD32CS x ≤ 131070 := by
  simp only [ADD32CS, and_ffff, shr_16]
  omega

theorem deltaIPv6Sum_lt (c : Nat) (os od ns nd : Nat × Nat × Nat × Nat) (hc : c < 65536)
    (hos : words32 os) (hod : words32 od) :
    deltaIPv6Sum c os od ns nd < 4294967296 := by
  obtain ⟨a1, a2, a3, a4⟩ := hos
  obtain ⟨b1, b2, b3, b4⟩ := hod
  have ha1 := ADD32CS_le _ a1
  have ha2 := ADD32CS_le _ a2
  have ha3 := ADD32CS_le _ a3
  have ha4 := ADD32CS_le _ a4
  have hb1 := ADD32CS_le _ b1
  have hb2 := ADD32CS_le _ b2
  have hb3 := ADD32CS_le _ b3
  have hb4 := ADD32CS_le _ b4
  have hn1 := SUB32CS_le ns.1
  have hn2 := SUB32CS_le ns.2.1
  have hn3 := SUB32CS_le ns.2.2.1
  have hn4 := SUB32CS_le ns.2.2.2
  have hd1 := SUB32CS_le nd.1
  have hd2 := SUB32CS_le nd.2.1
  have hd3 := SUB32CS_le nd.2.2.1
  have hd4 := SUB32CS_le nd.2.2.2
  simp only [deltaIPv6Sum, ADDN128CS, SUBN128CS]
  omega

/-- C18: for every 16-bit `old_sum` and all 32-bit address words, in `deltaIPv4Checksum`
and in `deltaIPv6Checksum` the operand sum and the two folding steps stay below `2 ^ 32`,
and the returned value is the operand sum reduced by repeating
`sum := (sum & 0xFFFF) + (sum >> 16)` until `sum < 0x10000`. -/
theorem delta_two_folds_suffice (c os od ns nd : Nat)
    (os6 od6 ns6 nd6 : Nat × Nat × Nat × Nat) (hc : c < 65536)
    (hos : os < 4294967296) (hod : od < 4294967296) (hns : ns < 4294967296)
    (hnd : nd < 4294967296) (hos6 : words32 os6) (hod6 : words32 od6) :
    (deltaIPv4Sum c os od ns nd < 4294967296
      ∧ (deltaIPv4Sum c os od ns nd &&& 0xFFFF) + (deltaIPv4Sum c os od ns nd >>> 16)
          < 4294967296
      ∧ ((deltaIPv4Sum c os od ns nd &&& 0xFFFF) + (deltaIPv4Sum c os od ns nd >>> 16))
          + (((deltaIPv4Sum c os od ns nd &&& 0xFFFF)
            + (deltaIPv4Sum c os od ns nd >>> 16)) >>> 16) < 4294967296
      ∧ deltaIPv4Checksum c os od ns nd = fullFold (deltaIPv4Sum c os od ns nd))
    ∧ (deltaIPv6Sum c os6 od6 ns6 nd6 < 4294967296
      ∧ (deltaIPv6Sum c os6 od6 ns6 nd6 &&& 0xFFFF) + (deltaIPv6Sum c os6 od6 ns6 nd6 >>> 16)
          < 4294967296
      ∧ ((deltaIPv6Sum c os6 od6 ns6 nd6 &&& 0xFFFF)
          + (deltaIPv6Sum c os6 od6 ns6 nd6 >>> 16))
          + (((deltaIPv6Sum c os6 od6 ns6 nd6 &&& 0xFFFF)
            + (deltaIPv6Sum c os6 od6 ns6 nd6 >>> 16)) >>> 16) < 4294967296
      ∧ deltaIPv6Checksum c os6 od6 ns6 nd6 = fullFold (deltaIPv6Sum c os6 od6 ns6 nd6)) := by
  have h4 := deltaIPv4Sum_lt c os od ns nd hc hos hod hns hnd
  have h6 := deltaIPv6Sum_lt c os6 od6 ns6 nd6 hc hos6 hod6
  have f4 := folds_no_overflow _ h4
  have f6 := folds_no_overflow _ h6
  refine ⟨⟨h4, f4.1, f4.2, ?_⟩, ⟨h6, f6.1, f6.2, ?_⟩⟩
  · rw [fullFold_eq_fold2 _ h4]
    simp only [deltaIPv4Checksum, and_ffff, Nat.mod_eq_of_lt h4]
  · rw [fullFold_eq_fold2 _ h6]
    simp only [deltaIPv6Checksum, and_ffff, Nat.mod_eq_of_lt h6]

/-- Witness for C18 at the largest operands: old sum `0xFFFF`, old addresses of all ones
and new addresses of zero. -/
theorem delta_two_folds_suffice_witness :
    (deltaIPv4Sum 0xFFFF 0xFFFFFFFF 0xFFFFFFFF 0 0 < 4294967296
      ∧ (deltaIPv4Sum 0xFFFF 0xFFFFFFFF 0xFFFFFFFF 0 0 &&& 0xFFFF)
          + (deltaIPv4Sum 0xFFFF 0xFFFFFFFF 0xFFFFFFFF 0 0 >>> 16) < 4294967296
      ∧ ((deltaIPv4Sum 0xFFFF 0xFFFFFFFF 0xFFFFFFFF 0 0 &&& 0xFFFF)
          + (deltaIPv4Sum 0xFFFF 0xFFFFFFFF 0xFFFFFFFF 0 0 >>> 16))
          + (((deltaIPv4Sum 0xFFFF 0xFFFFFFFF 0xFFFFFFFF 0 0 &&& 0xFFFF)
            + (deltaIPv4Sum 0xFFFF 0xFFFFFFFF 0xFFFFFFFF 0 0 >>> 16)) >>> 16) < 4294967296
      ∧ deltaIPv4Checksum 0xFFFF 0xFFFFFFFF 0xFFFFFFFF 0 0
          = fullFold (deltaIPv4Sum 0xFFFF 0xFFFFFFFF 0xFFFFFFFF 0 0))
    ∧ (deltaIPv6Sum 0xFFFF (0xFFFFFFFF, 0xFFFFFFFF, 0xFFFFFFFF, 0xFFFFFFFF)
          (0xFFFFFFFF, 0xFFFFFFFF, 0xFFFFFFFF, 0xFFFFFFFF) (0, 0, 0, 0) (0, 0, 0, 0)
          < 4294967296
      ∧ (deltaIPv6Sum 0xFFFF (0xFFFFFFFF, 0xFFFFFFFF, 0xFFFFFFFF, 0xFFFFFFFF)
          (0xFFFFFFFF, 0xFFFFFFFF, 0xFFFFFFFF, 0xFFFFFFFF) (0, 0, 0, 0) (0, 0, 0, 0) &&& 0xFFFF)
          + (deltaIPv6Sum 0xFFFF (0xFFFFFFFF, 0xFFFFFFFF, 0xFFFFFFFF, 0xFFFFFFFF)
          (0xFFFFFFFF, 0xFFFFFFFF, 0xFFFFFFFF, 0xFFFFFFFF) (0, 0, 0, 0) (0, 0, 0, 0) >>> 16)
          < 4294967296
      ∧ ((deltaIPv6Sum 0xFFFF (0xFFFFFFFF, 0xFFFFFFFF, 0xFFFFFFFF, 0xFFFFFFFF)
          (0xFFFFFFFF, 0xFFFFFFFF, 0xFFFFFFFF, 0xFFFFFFFF) (0, 0, 0, 0) (0, 0, 0, 0) &&& 0xFFFF)
          + (deltaIPv6Sum 0xFFFF (0xFFFFFFFF, 0xFFFFFFFF, 0xFFFFFFFF, 0xFFFFFFFF)
          (0xFFFFFFFF, 0xFFFFFFFF, 0xFFFFFFFF, 0xFFFFFFFF) (0, 0, 0, 0) (0, 0, 0, 0) >>> 16))
          + (((deltaIPv6Sum 0xFFFF (0xFFFFFFFF, 0xFFFFFFFF, 0xFFFFFFFF, 0xFFFFFFFF)
          (0xFFFFFFFF, 0xFFFFFFFF, 0xFFFFFFFF, 0xFFFFFFFF) (0, 0, 0, 0) (0, 0, 0, 0) &&& 0xFFFF)
            + (deltaIPv6Sum 0xFFFF (0xFFFFFFFF, 0xFFFFFFFF, 0xFFFFFFFF, 0xFFFFFFFF)
          (0xFFFFFFFF, 0xFFFFFFFF, 0xFFFFFFFF, 0xFFFFFFFF) (0, 0, 0, 0) (0, 0, 0, 0) >>> 16))
            >>> 16) < 4294967296
      ∧ deltaIPv6Checksum 0xFFFF (0xFFFFFFFF, 0xFFFFFFFF, 0xFFFFFFFF, 0xFFFFFFFF)
          (0xFFFFFFFF, 0xFFFFFFFF, 0xFFFFFFFF, 0xFFFFFFFF) (0, 0, 0, 0) (0, 0, 0, 0)
          = fullFold (deltaIPv6Sum 0xFFFF (0xFFFFFFFF, 0xFFFFFFFF, 0xFFFFFFFF, 0xFFFFFFFF)
          (0xFFFFFFFF, 0xFFFFFFFF, 0xFFFFFFFF, 0xFFFFFFFF) (0, 0, 0, 0) (0, 0, 0, 0))) :=
  delta_two_folds_suffice 0xFFFF 0xFFFFFFFF 0xFFFFFFFF 0 0
    (0xFFFFFFFF, 0xFFFFFFFF, 0xFFFFFFFF, 0xFFFFFFFF)
    (0xFFFFFFFF, 0xFFFFFFFF, 0xFFFFFFFF, 0xFFFFFFFF) (0, 0, 0, 0) (0, 0, 0, 0)
    (by decide) (by decide) (by decide) (by decide) (by decide) (by decide) (by decide)

theorem bswap16_lt (x : Nat) : bswap16 x < 65536 := by
  unfold bswap16; omega

theorem bswap16_mod (x : Nat) (h : x < 65536) : bswap16 x % 65535 = (256 * x) % 65535 := by
  have hx : x = 256 * (x / 256) + x % 256 := by omega
  have h1 : x / 256 % 256 = x / 256 := by omega
  have h2 : x % 256 < 256 := Nat.mod_lt _ (by decide)
  have h3 : x / 256 < 256 := by omega
  unfold bswap16
  rw [h1]
  generalize x / 256 = hi at *
  generalize x % 256 = lo at *
  subst hx
  omega

theorem bswap16_eq_zero (x : Nat) (h : x < 65536) : bswap16 x = 0 ↔ x = 0 := by
  unfold bswap16; omega

theorem ADD32CS_bswap32 (a : Nat) (_h : a < 4294967296) :
    ADD32CS (bswap32 a) = bswap16 (a % 65536) + bswap16 (a / 65536) := by
  have h0 : a % 256 < 256 := Nat.mod_lt _ (by decide)
  have h1 : a / 256 % 256 < 256 := Nat.mod_lt _ (by decide)
  have h2 : a / 65536 % 256 < 256 := Nat.mod_lt _ (by decide)
  have h3 : a / 16777216 % 256 < 256 := Nat.mod_lt _ (by decide)
  have e1 : a % 65536 % 256 = a % 256 := by omega
  have e2 : a % 65536 / 256 % 256 = a / 256 % 256 := by omega
  have e3 : a / 65536 / 256 % 256 = a / 16777216 % 256 := by omega
  simp only [ADD32CS, bswap32, bswap16, and_ffff, shr_16, e1, e2, e3]
  generalize a % 256 = b0 at *
  generalize a / 256 % 256 = b1 at *
  generalize a / 65536 % 256 = b2 at *
  generalize a / 16777216 % 256 = b3 at *
  omega

theorem SUB32CS_halves (a : Nat) (h : a < 4294967296) :
    SUB32CS a = (65535 - a % 65536) + (65535 - a / 65536) := by
  simp only [SUB32CS, not32, and_ffff, shr_16]
  omega

theorem bswap16_compl (x : Nat) (h : x < 65536) :
    bswap16 (65535 - x) = 65535 - bswap16 x := by
  unfold bswap16; omega

theorem bswap32_lt (a : Nat) : bswap32 a < 4294967296 := by
  unfold bswap32; omega

theorem SUB32CS_bswap32 (a : Nat) (h : a < 4294967296) :
    SUB32CS (bswap32 a) = bswap16 (65535 - a % 65536) + bswap16 (65535 - a / 65536) := by
  have hadd := ADD32CS_bswap32 a h
  rw [ADD32CS_eq] at hadd
  rw [SUB32CS_eq _ (bswap32_lt a), hadd, bswap16_compl _ (by omega),
    bswap16_compl _ (by omega)]
  have := bswap16_lt (a % 65536)
  have := bswap16_lt (a / 65536)
  omega

theorem swap_cong_add (sy sx y x : Nat) (hs : sy % 65535 = (256 * sx) % 65535)
    (h : y % 65535 = (256 * x) % 65535) :
    (sy + y) % 65535 = (256 * (sx + x)) % 65535 := by
  omega

theorem fold2_swap_of_cong (t t' : Nat) (ht : t < 4294967296) (ht' : t' < 4294967296)
    (hmod : t' % 65535 = (256 * t) % 65535) (hzero : t' = 0 ↔ t = 0) :
    fold2 t' % 65536 = bswap16 (fold2 t % 65536) := by
  have fm := fold2_mod t ht
  have fz := fold2_eq_zero t ht
  have fl : fold2 t % 65536 < 65536 := Nat.mod_lt _ (by decide)
  have fm' := fold2_mod t' ht'
  have fz' := fold2_eq_zero t' ht'
  have fl' : fold2 t' % 65536 < 65536 := Nat.mod_lt _ (by decide)
  generalize fold2 t % 65536 = r at *
  generalize fold2 t' % 65536 = r' at *
  have bm := bswap16_mod r fl
  have bz := bswap16_eq_zero r fl
  have bl := bswap16_lt r
  generalize bswap16 r = br at *
  have hrr : r' % 65535 = br % 65535 := by omega
  have hz2 : r' = 0 ↔ br = 0 := by omega
  omega

/-- Folding commutes with the byte swap of the operands: nine 16-bit operands. -/
theorem fold2_bswap (x0 x1 x2 x3 x4 x5 x6 x7 x8 : Nat) (h0 : x0 < 65536) (h1 : x1 < 65536)
    (h2 : x2 < 65536) (h3 : x3 < 65536) (h4 : x4 < 65536) (h5 : x5 < 65536)
    (h6 : x6 < 65536) (h7 : x7 < 65536) (h8 : x8 < 65536) :
    fold2 (bswap16 x0 + bswap16 x1 + bswap16 x2 + bswap16 x3 + bswap16 x4 + bswap16 x5
        + bswap16 x6 + bswap16 x7 + bswap16 x8) % 65536
      = bswap16 (fold2 (x0 + x1 + x2 + x3 + x4 + x5 + x6 + x7 + x8) % 65536) := by
  have hsum := swap_cong_add _ _ _ _ (swap_cong_add _ _ _ _ (swap_cong_add _ _ _ _
    (swap_cong_add _ _ _ _ (swap_cong_add _ _ _ _ (swap_cong_add _ _ _ _
    (swap_cong_add _ _ _ _ (swap_cong_add _ _ _ _ (bswap16_mod x0 h0) (bswap16_mod x1 h1))
    (bswap16_mod x2 h2)) (bswap16_mod x3 h3)) (bswap16_mod x4 h4)) (bswap16_mod x5 h5))
    (bswap16_mod x6 h6)) (bswap16_mod x7 h7)) (bswap16_mod x8 h8)
  have z0 := bswap16_eq_zero x0 h0
  have z1 := bswap16_eq_zero x1 h1
  have z2 := bswap16_eq_zero x2 h2
  have z3 := bswap16_eq_zero x3 h3
  have z4 := bswap16_eq_zero x4 h4
  have z5 := bswap16_eq_zero x5 h5
  have z6 := bswap16_eq_zero x6 h6
  have z7 := bswap16_eq_zero x7 h7
  have z8 := bswap16_eq_zero x8 h8
  have l0 := bswap16_lt x0
  have l1 := bswap16_lt x1
  have l2 := bswap16_lt x2
  have l3 := bswap16_lt x3
  have l4 := bswap16_lt x4
  have l5 := bswap16_lt x5
  have l6 := bswap16_lt x6
  have l7 := bswap16_lt x7
  have l8 := bswap16_lt x8
  exact fold2_swap_of_cong _ _ (by omega) (by omega) hsum (by omega)

/-- C19: for every 16-bit `c` and all 32-bit `a`, `b`, `a'`, `b'`, `deltaIPv4Checksum` of
the byte-swapped arguments is the byte swap of `deltaIPv4Checksum` of the arguments. -/
theorem deltaIPv4Checksum_bswap (c a b a' b' : Nat) (hc : c < 65536)
    (ha : a < 4294967296) (hb : b < 4294967296) (ha' : a' < 4294967296)
    (hb' : b' < 4294967296) :
    deltaIPv4Checksum (bswap16 c) (bswap32 a) (bswap32 b) (bswap32 a') (bswap32 b')
      = bswap16 (deltaIPv4Checksum c a b a' b') := by
  have hl := deltaIPv4Sum_lt c a b a' b' hc ha hb ha' hb'
  have hl' := deltaIPv4Sum_lt (bswap16 c) (bswap32 a) (bswap32 b) (bswap32 a') (bswap32 b')
    (bswap16_lt c) (bswap32_lt a) (bswap32_lt b) (bswap32_lt a') (bswap32_lt b')
  have e1 : deltaIPv4Sum (bswap16 c) (bswap32 a) (bswap32 b) (bswap32 a') (bswap32 b')
      = bswap16 c + bswap16 (a % 65536) + bswap16 (a / 65536) + bswap16 (b % 65536)
        + bswap16 (b / 65536) + bswap16 (65535 - a' % 65536) + bswap16 (65535 - a' / 65536)
        + bswap16 (65535 - b' % 65536) + bswap16 (65535 - b' / 65536) := by
    simp only [deltaIPv4Sum, ADD32CS_bswap32 a ha, ADD32CS_bswap32 b hb,
      SUB32CS_bswap32 a' ha', SUB32CS_bswap32 b' hb']
    omega
  have e2 : deltaIPv4Sum c a b a' b'
      = c + a % 65536 + a / 65536 + b % 65536 + b / 65536 + (65535 - a' % 65536)
        + (65535 - a' / 65536) + (65535 - b' % 65536) + (65535 - b' / 65536) := by
    simp only [deltaIPv4Sum, ADD32CS_eq, halves, SUB32CS_halves a' ha', SUB32CS_halves b' hb']
    omega
  simp only [deltaIPv4Checksum, and_ffff, Nat.mod_eq_of_lt hl, Nat.mod_eq_of_lt hl']
  rw [e1, e2]
  exact fold2_bswap _ _ _ _ _ _ _ _ _ hc (Nat.mod_lt _ (by decide)) (by omega)
    (Nat.mod_lt _ (by decide)) (by omega) (by omega) (by omega) (by omega) (by omega)

/-- Witness for C19 at a checksum and addresses 10.0.0.1, 8.8.8.8, 10.0.0.2, 8.8.4.4. -/
theorem deltaIPv4Checksum_bswap_witness :
    deltaIPv4Checksum (bswap16 0xC020) (bswap32 0x0A000001) (bswap32 0x08080808)
        (bswap32 0x0A000002) (bswap32 0x08080404)
      = bswap16 (deltaIPv4Checksum 0xC020 0x0A000001 0x08080808 0x0A000002 0x08080404) :=
  deltaIPv4Checksum_bswap 0xC020 0x0A000001 0x08080808 0x0A000002 0x08080404
    (by decide) (by decide) (by decide) (by decide) (by decide)

/-- C20: for every 16-bit `old_sum` and all 32-bit old and new addresses, the result `r` of
`deltaIPv4Checksum` is at most `0xFFFF`, is congruent modulo 65535 to `old_sum` plus the
four 16-bit halves of the old addresses minus the four 16-bit halves of the new addresses,
and is zero exactly when `old_sum` is 0, both old addresses are 0 and both new addresses
are `0xFFFFFFFF`. -/
theorem deltaIPv4Checksum_guarantee (c os od ns nd : Nat) (hc : c < 65536)
    (hos : os < 4294967296) (hod : od < 4294967296) (hns : ns < 4294967296)
    (hnd : nd < 4294967296) :
    deltaIPv4Checksum c os od ns nd ≤ 0xFFFF
      ∧ ((deltaIPv4Checksum c os od ns nd : Int)
          - ((c : Int) + (os % 65536 + os / 65536 : Nat) + (od % 65536 + od / 65536 : Nat)
              - (ns % 65536 + ns / 65536 : Nat) - (nd % 65536 + nd / 65536 : Nat))) % 65535 = 0
      ∧ (deltaIPv4Checksum c os od ns nd = 0
          ↔ c = 0 ∧ os = 0 ∧ od = 0 ∧ ns = 0xFFFFFFFF ∧ nd = 0xFFFFFFFF) := by
  have hlt := deltaIPv4Checksum_lt c os od ns nd
  have hmod := deltaIPv4Checksum_mod c os od ns nd hc hos hod hns hnd
  have hz := deltaIPv4Checksum_eq_zero c os od ns nd hc hos hod hns hnd
  have h1 := halves_le os hos
  have h2 := halves_le od hod
  have h3 := halves_le ns hns
  have h4 := halves_le nd hnd
  have z1 := halves_eq_zero os
  have z2 := halves_eq_zero od
  have m3 := halves_eq_max ns hns
  have m4 := halves_eq_max nd hnd
  unfold halves at hmod hz h1 h2 h3 h4 z1 z2 m3 m4
  generalize deltaIPv4Checksum c os od ns nd = r at *
  refine ⟨by omega, ?_, ?_⟩
  · generalize os % 65536 + os / 65536 = x1 at *
    generalize od % 65536 + od / 65536 = x2 at *
    generalize ns % 65536 + ns / 65536 = y1 at *
    generalize nd % 65536 + nd / 65536 = y2 at *
    omega
  · constructor
    · intro h
      have := hz.mp h
      omega
    · intro h
      apply hz.mpr
      omega

/-- Witness for C20 at the all-zero case: old sum 0, old addresses 0, new addresses of all
ones. -/
theorem deltaIPv4Checksum_guarantee_witness :
    deltaIPv4Checksum 0 0 0 0xFFFFFFFF 0xFFFFFFFF ≤ 0xFFFF
      ∧ ((deltaIPv4Checksum 0 0 0 0xFFFFFFFF 0xFFFFFFFF : Int)
          - (((0 : Nat) : Int) + (0 % 65536 + 0 / 65536 : Nat) + (0 % 65536 + 0 / 65536 : Nat)
              - (0xFFFFFFFF % 65536 + 0xFFFFFFFF / 65536 : Nat)
              - (0xFFFFFFFF % 65536 + 0xFFFFFFFF / 65536 : Nat))) % 65535 = 0
      ∧ (deltaIPv4Checksum 0 0 0 0xFFFFFFFF 0xFFFFFFFF = 0
          ↔ 0 = 0 ∧ 0 = 0 ∧ 0 = 0 ∧ 0xFFFFFFFF = 0xFFFFFFFF ∧ 0xFFFFFFFF = 0xFFFFFFFF) :=
  deltaIPv4Checksum_guarantee 0 0 0 0xFFFFFFFF 0xFFFFFFFF
    (by decide) (by decide) (by decide) (by decide) (by decide)

end net
end llarp
